import Mathlib

/-!
Verification development for the ancestral-synth entity-resolution core.

This file shallowly embeds, in Lean, the parts of the Python source that the
specification's claims are about:

* `ancestral_synth/agents/dedup_agent.py` — `parse_name`, `heuristic_match_score`;
* `ancestral_synth/services/validation.py` — `Validator`;
* `ancestral_synth/services/genealogy_service.py` — reference resolution,
  duplicate-parent detection and merging, the correction loop, `process_next`;
* `ancestral_synth/persistence/repositories.py` — person / link / queue stores.

Modelling conventions:

* Python strings are Lean `String`s; the character-level helpers below mirror
  the behaviour of the concrete regular expressions that appear in the source
  (all patterns are fixed literals, so each is implemented as a direct
  scanner with the same backtracking semantics).  Case-insensitivity covers
  ASCII plus the letter é/É, the only non-ASCII letter in the patterns.
* Python `float` scores are modelled as `ℚ` (every constant in the source is
  an exact decimal).
* Person UUIDs are modelled as `Nat`, rendered as decimal numerals; the
  syntactic validity check performed by `uuid.UUID(...)` is modelled by
  `parsePersonId`, which accepts exactly the decimal numerals.
* `datetime.date` values are modelled by their year (the source only ever
  consumes `.year`); constructing `date(y, 1, 1)` raises `ValueError` unless
  `1 ≤ y ≤ 9999`, which is modelled by `mkBirthDate` returning `Except`.
* Python truthiness is modelled explicitly: `None`, `0`, `""` and `[]` are
  falsy (`intTruthy`, `strTruthy`, …).
-/

namespace AncestralSynth

/-! ### Character helpers (Python `str` / `re` semantics for the fixed patterns) -/

/-- Lower-casing as used by `str.lower()` restricted to the characters that
occur in the modelled patterns: ASCII letters and É. -/
def pyLowerChar (c : Char) : Char :=
  if 'A' ≤ c ∧ c ≤ 'Z' then Char.ofNat (c.toNat + 32)
  else if c = 'É' then 'é'
  else c

def pyLower (s : String) : String :=
  String.mk (s.toList.map pyLowerChar)

/-- Whitespace for `\s` / `str.strip()` (ASCII fragment). -/
def isWsChar (c : Char) : Bool :=
  c = ' ' ∨ c = '\t' ∨ c = '\n' ∨ c = '\r' ∨ c = '\x0b' ∨ c = '\x0c'

/-- Word characters for `\w` / `\b` (ASCII fragment plus é/É). -/
def isWordCh (c : Char) : Bool :=
  ('a' ≤ c ∧ c ≤ 'z') ∨ ('A' ≤ c ∧ c ≤ 'Z') ∨ ('0' ≤ c ∧ c ≤ '9') ∨
    c = '_' ∨ c = 'é' ∨ c = 'É'

/-- Case-insensitive character comparison, as under `re.IGNORECASE`. -/
def chIEq (a b : Char) : Bool :=
  pyLowerChar a = pyLowerChar b

/-- Does `s` start with `kw`, case-insensitively?  Returns the rest. -/
def dropIWord : List Char → List Char → Option (List Char)
  | [], s => some s
  | _ :: _, [] => none
  | k :: ks, c :: cs => if chIEq k c then dropIWord ks cs else none

def stripLeft : List Char → List Char
  | [] => []
  | c :: cs => if isWsChar c then stripLeft cs else c :: cs

/-- `str.strip()`. -/
def stripBoth (l : List Char) : List Char :=
  (stripLeft ((stripLeft l.reverse).reverse))

/-- `str.rstrip(".")`. -/
def rstripDots (l : List Char) : List Char :=
  ((l.reverse.dropWhile (fun c => c = '.')).reverse)

/-- `re.sub(r"\s+", " ", s)`: collapse every whitespace run to one space.
The boolean flag records whether the previous character was whitespace. -/
def collapseWsAux : Bool → List Char → List Char
  | _, [] => []
  | prevWs, c :: cs =>
    if isWsChar c then
      if prevWs then collapseWsAux true cs
      else ' ' :: collapseWsAux true cs
    else c :: collapseWsAux false cs

def collapseWs (l : List Char) : List Char :=
  collapseWsAux false l

/-- `str.split()`: split on whitespace runs, dropping empty pieces. -/
def pySplit (l : List Char) : List String :=
  ((l.splitOnP (fun c => isWsChar c)).filter (fun p => ¬ p.isEmpty)).map String.mk

/-! ### The maiden-name patterns

The source tries, in order, the patterns
`\(née\s+([^)]+)\)`, `\(born\s+([^)]+)\)`, `\(maiden\s+name:?\s*([^)]+)\)`,
`née\s+(\w+)` (all `re.IGNORECASE`); the first pattern that matches anywhere
supplies `group(1).strip()` as the maiden name and is then removed from the
string with `re.sub` (all occurrences).

Each `tryAt` function below attempts a match at the head of its argument and
returns `(captured group, rest after the match)`. -/

/-- Match `\(KW\s+([^)]+)\)` at the head: `(`, the keyword, then (by greedy
matching with backtracking) a nonempty whitespace run, a nonempty run of
non-`)` characters, and `)`. -/
def tryParenKw (kw : List Char) (s : List Char) : Option (List Char × List Char) :=
  match s with
  | [] => none
  | c :: cs =>
    if c = '(' then
      match dropIWord kw cs with
      | none => none
      | some rest =>
        let run := rest.takeWhile (fun x => x ≠ ')')
        let after := rest.drop run.length
        match after with
        | ')' :: tail =>
          let ws := run.takeWhile isWsChar
          if ws.length = 0 then none
          else if run.length > ws.length then
            -- greedy `\s+` then `([^)]+)` captures the rest of the run
            some (run.drop ws.length, tail)
          else if ws.length ≥ 2 then
            -- all-whitespace run: `\s+` backtracks one character
            some (run.drop (run.length - 1), tail)
          else none
        | _ => none
    else none

/-- Match `\(maiden\s+name:?\s*([^)]+)\)` at the head. -/
def tryMaidenKw (s : List Char) : Option (List Char × List Char) :=
  match s with
  | [] => none
  | c :: cs =>
    if c = '(' then
      match dropIWord "maiden".toList cs with
      | none => none
      | some rest =>
        let ws1 := rest.takeWhile isWsChar
        if ws1.length = 0 then none
        else
          match dropIWord "name".toList (rest.drop ws1.length) with
          | none => none
          | some rest2 =>
            let rest3 := match rest2 with
              | ':' :: t => t
              | _ => rest2
            let run := rest3.takeWhile (fun x => x ≠ ')')
            let after := rest3.drop run.length
            match after with
            | ')' :: tail =>
              let ws := run.takeWhile isWsChar
              if run.length > ws.length then
                some (run.drop ws.length, tail)
              else if run.length ≥ 1 then
                -- all-whitespace run: `\s*` backtracks one character
                some (run.drop (run.length - 1), tail)
              else none
            | _ => none
    else none

/-- Match `née\s+(\w+)` at the head. -/
def tryBareNee (s : List Char) : Option (List Char × List Char) :=
  match dropIWord "née".toList s with
  | none => none
  | some rest =>
    let ws := rest.takeWhile isWsChar
    if ws.length = 0 then none
    else
      let rest2 := rest.drop ws.length
      let w := rest2.takeWhile isWordCh
      if w.length = 0 then none
      else some (w, rest2.drop w.length)

/-- `re.search`: first match scanning left to right; returns the group. -/
def scanFirst (tryAt : List Char → Option (List Char × List Char)) :
    List Char → Option (List Char)
  | [] =>
    match tryAt [] with
    | some (g, _) => some g
    | none => none
  | s@(_ :: rest) =>
    match tryAt s with
    | some (g, _) => some g
    | none => scanFirst tryAt rest

/-- `re.sub(pattern, "", s)`: remove every non-overlapping match, scanning
left to right.  Fuel-indexed; every pattern consumes at least one character,
so `s.length` fuel suffices. -/
def scanRemove (tryAt : List Char → Option (List Char × List Char)) :
    Nat → List Char → List Char
  | 0, s => s
  | _ + 1, [] => []
  | fuel + 1, s@(c :: rest) =>
    match tryAt s with
    | some (_, after) => scanRemove tryAt fuel after
    | none => c :: scanRemove tryAt fuel rest

/-! ### The suffix pattern

`\b(Jr\.?|Sr\.?|III|IV|II|2nd|3rd)\b`, `re.IGNORECASE`, used with both
`re.findall` (collecting `group(1)` of every non-overlapping match) and
`re.sub` (removing every matched span).  Alternatives are tried left to
right; the optional dot is greedy and backtracks when the trailing `\b`
fails after it. -/

/-- Case-insensitive literal match keeping the original characters. -/
def takeIWord : List Char → List Char → Option (List Char × List Char)
  | [], s => some ([], s)
  | _ :: _, [] => none
  | k :: ks, c :: cs =>
    if chIEq k c then (takeIWord ks cs).map (fun m => (c :: m.1, m.2)) else none

/-- `\b` between a character and the rest of the string. -/
def boundaryAfter (last : Char) (rest : List Char) : Bool :=
  match rest with
  | [] => isWordCh last
  | c :: _ => xor (isWordCh last) (isWordCh c)

/-- `\b` between the previous character (none at string start) and `c`. -/
def boundaryBefore (prev : Option Char) (c : Char) : Bool :=
  xor ((prev.map isWordCh).getD false) (isWordCh c)

/-- One fixed-word alternative followed by `\b`. -/
def tryPlainSuffix (pat : String) (s : List Char) : Option (List Char × List Char) :=
  match takeIWord pat.toList s with
  | none => none
  | some (m, r) => if boundaryAfter (m.getLastD ' ') r then some (m, r) else none

/-- `Jr\.?` / `Sr\.?` followed by `\b`: the dot is consumed greedily and
given back when the boundary after it fails. -/
def tryDotSuffix (pat : String) (s : List Char) : Option (List Char × List Char) :=
  match takeIWord pat.toList s with
  | none => none
  | some (m, r) =>
    match r with
    | '.' :: r2 =>
      if boundaryAfter '.' r2 then some (m ++ ['.'], r2)
      else if boundaryAfter (m.getLastD ' ') r then some (m, r)
      else none
    | _ =>
      if boundaryAfter (m.getLastD ' ') r then some (m, r) else none

/-- The alternation, tried in source order, with the leading `\b`. -/
def tryAnySuffix (prev : Option Char) (s : List Char) : Option (List Char × List Char) :=
  match s with
  | [] => none
  | c :: _ =>
    if boundaryBefore prev c then
      (tryDotSuffix "Jr" s).orElse fun _ =>
      (tryDotSuffix "Sr" s).orElse fun _ =>
      (tryPlainSuffix "III" s).orElse fun _ =>
      (tryPlainSuffix "IV" s).orElse fun _ =>
      (tryPlainSuffix "II" s).orElse fun _ =>
      (tryPlainSuffix "2nd" s).orElse fun _ =>
      (tryPlainSuffix "3rd" s)
    else none

/-- Simultaneous `re.findall` + `re.sub` for the suffix pattern: returns the
captured groups and the string with every matched span removed. -/
def suffixScan : Nat → Option Char → List Char → (List (List Char) × List Char)
  | 0, _, s => ([], s)
  | _ + 1, _, [] => ([], [])
  | fuel + 1, prev, s@(c :: rest) =>
    match tryAnySuffix prev s with
    | some (g, after) =>
      let res := suffixScan fuel (some (g.getLastD c)) after
      (g :: res.1, res.2)
    | none =>
      let res := suffixScan fuel (some c) rest
      (res.1, c :: res.2)

/-! ### `parse_name` -/

/-- `dedup_agent.ParsedName`.  The Python dataclass stores `suffixes` as
`list | None` and `parse_name` always passes `suffixes or None`, so the empty
list below corresponds exactly to Python `None`. -/
structure ParsedName where
  given_name : String
  middle_names : List String
  surname : String
  maiden_name : Option String := none
  suffixes : List String := []
  deriving Repr, DecidableEq

/-- Python truthiness of an optional string (`None` and `""` are falsy). -/
def optStrTruthy : Option String → Bool
  | none => false
  | some s => s.length ≠ 0

/-- Python truthiness of an optional integer (`None` and `0` are falsy). -/
def intTruthy : Option Int → Bool
  | none => false
  | some n => n ≠ 0

/-- `ParsedName.all_surnames` (lower-cased surname plus maiden name when
truthy); modelled as a list, consumed only through membership. -/
def all_surnames (p : ParsedName) : List String :=
  pyLower p.surname ::
    (match p.maiden_name with
     | some m => if m.length ≠ 0 then [pyLower m] else []
     | none => [])

/-- Result of the maiden-name phase: extracted maiden name (if any pattern
matched) and the remaining string. -/
def maidenPhase (name : List Char) : Option String × List Char :=
  let p1 := tryParenKw "née".toList
  let p2 := tryParenKw "born".toList
  match scanFirst p1 name with
  | some g => (some (String.mk (stripBoth g)), stripBoth (scanRemove p1 name.length name))
  | none =>
    match scanFirst p2 name with
    | some g => (some (String.mk (stripBoth g)), stripBoth (scanRemove p2 name.length name))
    | none =>
      match scanFirst tryMaidenKw name with
      | some g =>
        (some (String.mk (stripBoth g)), stripBoth (scanRemove tryMaidenKw name.length name))
      | none =>
        match scanFirst tryBareNee name with
        | some g =>
          (some (String.mk (stripBoth g)), stripBoth (scanRemove tryBareNee name.length name))
        | none => (none, name)

/-- The token list `parts` that `parse_name` finally splits, together with
the extracted maiden name and suffixes. -/
def parse_name_pieces (full_name : String) : List String × Option String × List String :=
  let name0 := stripBoth full_name.toList
  let mp := maidenPhase name0
  let sp := suffixScan mp.2.length none mp.2
  let suffixes := sp.1.map (fun g => String.mk (rstripDots g))
  let name2 := stripBoth sp.2
  let name3 := stripBoth (collapseWs name2)
  (pySplit name3, mp.1, suffixes)

/-- The final token split of `parse_name` (lines 86-120 of
`dedup_agent.py`). -/
def assembleParsed (parts : List String) (maiden : Option String)
    (suffixes : List String) : ParsedName :=
  match parts with
  | [] =>
    { given_name := "Unknown", middle_names := [], surname := "Unknown",
      maiden_name := maiden, suffixes := suffixes }
  | [a] =>
    { given_name := a, middle_names := [], surname := "Unknown",
      maiden_name := maiden, suffixes := suffixes }
  | [a, b] =>
    { given_name := a, middle_names := [], surname := b,
      maiden_name := maiden, suffixes := suffixes }
  | a :: b :: c :: rest =>
    { given_name := a, middle_names := (b :: c :: rest).dropLast,
      surname := (b :: c :: rest).getLast (by simp),
      maiden_name := maiden, suffixes := suffixes }

/-- `dedup_agent.parse_name`. -/
def parse_name (full_name : String) : ParsedName :=
  assembleParsed (parse_name_pieces full_name).1 (parse_name_pieces full_name).2.1
    (parse_name_pieces full_name).2.2

/-! ### `heuristic_match_score` -/

/-- Python `min` on two rationals. -/
def pyMin (a b : ℚ) : ℚ := if a ≤ b then a else b

/-- Python `max` on two rationals. -/
def pyMax (a b : ℚ) : ℚ := if b ≤ a then a else b

/-- Python `set(a) == set(b)` on lists of strings. -/
def listSetEq (a b : List String) : Bool :=
  a.all (· ∈ b) ∧ b.all (· ∈ a)

/-- Python `set(a) & set(b)` nonempty. -/
def listsIntersect (a b : List String) : Bool :=
  a.any (· ∈ b)

/-- The incremental `name_score` computation of `heuristic_match_score`
(lines 436-468 of `dedup_agent.py`), as the value it accumulates. -/
def hm_name_score (new_parsed candidate_parsed : ParsedName) : ℚ :=
  if pyLower new_parsed.given_name = pyLower candidate_parsed.given_name then
    let surnameAdd : ℚ :=
      if listsIntersect (all_surnames new_parsed) (all_surnames candidate_parsed) then 1/4
      else
        let candidate_all_parts :=
          ([candidate_parsed.given_name] ++ candidate_parsed.middle_names ++
            [candidate_parsed.surname]).map pyLower
        if pyLower new_parsed.surname ∈ candidate_all_parts then 1/5
        else
          let new_all_parts :=
            ([new_parsed.given_name] ++ new_parsed.middle_names ++
              [new_parsed.surname]).map pyLower
          if pyLower candidate_parsed.surname ∈ new_all_parts then 1/5 else 0
    let middleAdd : ℚ :=
      if new_parsed.middle_names ≠ [] ∧ candidate_parsed.middle_names ≠ [] ∧
          listsIntersect (new_parsed.middle_names.map pyLower)
            (candidate_parsed.middle_names.map pyLower) then 1/10
      else 0
    1/4 + surnameAdd + middleAdd
  else 0

/-- The `year_score` computation (lines 470-479): note the Python truthiness
test `if new_birth_year and candidate_birth_year`, under which a year equal
to `0` counts as absent. -/
def hm_year_score (new_birth_year candidate_birth_year : Option Int) : ℚ :=
  if intTruthy new_birth_year ∧ intTruthy candidate_birth_year then
    let year_diff := (new_birth_year.getD 0 - candidate_birth_year.getD 0).natAbs
    if year_diff = 0 then 1/2
    else if year_diff ≤ 2 then 9/20
    else if year_diff ≤ 5 then 3/10
    else 0
  else 0

/-- `dedup_agent.heuristic_match_score`. -/
def heuristic_match_score (new_name : String) (new_birth_year : Option Int)
    (candidate_name : String) (candidate_birth_year : Option Int) : ℚ :=
  if (parse_name new_name).suffixes ≠ [] ∧ (parse_name candidate_name).suffixes ≠ [] ∧
      ¬ listSetEq (parse_name new_name).suffixes (parse_name candidate_name).suffixes then 0
  else
    pyMax 0 (pyMin (hm_name_score (parse_name new_name) (parse_name candidate_name) +
      hm_year_score new_birth_year candidate_birth_year) 1)

/-! ### The scorer's reference definition, from the specification's words

§4.2 / §8 of the specification: suffix gate; given-name gate; `+0.25`
baseline; `+0.25` if the surname-sets intersect, else `+0.20` if either
person's surname appears as any name-token of the other; `+0.10` if both
have middle names and those sets intersect; year tiers `+0.5 / +0.45 / +0.3`
for gaps `0 / ≤2 / ≤5`; result clamped to `[0, 1]`. -/

def spec_name_score (p1 p2 : ParsedName) : ℚ :=
  if pyLower p1.given_name ≠ pyLower p2.given_name then 0
  else
    1/4 +
    (if listsIntersect (all_surnames p1) (all_surnames p2) then 1/4
     else if pyLower p1.surname ∈ (([p2.given_name] ++ p2.middle_names ++ [p2.surname]).map pyLower)
         ∨ pyLower p2.surname ∈ (([p1.given_name] ++ p1.middle_names ++ [p1.surname]).map pyLower)
       then 1/5
     else 0) +
    (if p1.middle_names ≠ [] ∧ p2.middle_names ≠ [] ∧
        listsIntersect (p1.middle_names.map pyLower) (p2.middle_names.map pyLower)
      then 1/10 else 0)

def spec_year_score (y1 y2 : Option Int) : ℚ :=
  match y1, y2 with
  | some a, some b =>
    let d := (a - b).natAbs
    if d = 0 then 1/2 else if d ≤ 2 then 9/20 else if d ≤ 5 then 3/10 else 0
  | _, _ => 0

/-- The specification's reference scorer. -/
def spec_match_score (n1 : String) (y1 : Option Int) (n2 : String) (y2 : Option Int) : ℚ :=
  if (parse_name n1).suffixes ≠ [] ∧ (parse_name n2).suffixes ≠ [] ∧
      ¬ listSetEq (parse_name n1).suffixes (parse_name n2).suffixes then 0
  else
    pyMax 0 (pyMin (spec_name_score (parse_name n1) (parse_name n2) +
      spec_year_score y1 y2) 1)

/-- A year under Python truthiness: `0` collapses to "absent". -/
def truthyYear (y : Option Int) : Option Int :=
  if intTruthy y then y else none

/-! ### Domain enumerations and extracted data (`domain/enums.py`, `domain/models.py`) -/

inductive Gender
  | male
  | female
  | unknown
  deriving Repr, DecidableEq

inductive PersonStatus
  | pending
  | queued
  | processing
  | complete
  deriving Repr, DecidableEq

inductive RelationshipType
  | parent
  | child
  | spouse
  | sibling
  | grandparent
  | grandchild
  | uncle
  | aunt
  | cousin
  | niece
  | nephew
  | other
  deriving Repr, DecidableEq

/-- `domain.models.PersonReference`. -/
structure PersonReference where
  name : String
  relationship : RelationshipType
  approximate_birth_year : Option Int := none
  gender : Gender := Gender.unknown
  context : Option String := none
  deriving Repr, DecidableEq

/-- `domain.models.ExtractedEvent`.  Dates are modelled by their year (only
`.year` and string rendering are consumed); `event_type` is modelled by its
rendered string. -/
structure ExtractedEvent where
  event_type : String
  event_date : Option Int := none
  event_year : Option Int := none
  deriving Repr, DecidableEq

/-- `domain.models.ExtractedData`. -/
structure ExtractedData where
  given_name : String
  surname : String
  maiden_name : Option String := none
  gender : Gender := Gender.unknown
  birth_date : Option Int := none
  birth_place : Option String := none
  birth_year : Option Int := none
  death_date : Option Int := none
  death_place : Option String := none
  death_year : Option Int := none
  parents : List PersonReference := []
  children : List PersonReference := []
  spouses : List PersonReference := []
  siblings : List PersonReference := []
  other_relatives : List PersonReference := []
  events : List ExtractedEvent := []
  notes : List String := []
  deriving Repr, DecidableEq

/-! ### The validator (`services/validation.py`) -/

/-- `validation.ValidationResult`. -/
structure ValidationResult where
  is_valid : Bool
  errors : List String := []
  warnings : List String := []
  deriving Repr, DecidableEq

/-- `validation.Validator` configuration (defaults from `config.Settings`). -/
structure Validator where
  min_parent_age : Int := 14
  max_parent_age : Int := 60
  max_lifespan : Int := 120
  deriving Repr, DecidableEq

/-- `config.Settings.max_correction_attempts` default. -/
def settings_max_correction_attempts : Nat := 2

/-- `Validator._get_year`: a `date` is always truthy, so a present date wins
over the year field. -/
def getYearVal (dateVal yearVal : Option Int) : Option Int :=
  match dateVal with
  | some y => some y
  | none => yearVal

/-- The age checks of `_validate_parent_child` (lines 129-137). -/
def parentAgeEW (v : Validator) (parent_name : String) (parent_age_at_birth : Int) :
    List String × List String :=
  if parent_age_at_birth < v.min_parent_age then
    (["Parent " ++ parent_name ++ " too young at child\x27s birth: age " ++
      toString parent_age_at_birth ++ " (min: " ++ toString v.min_parent_age ++ ")"], [])
  else if parent_age_at_birth > v.max_parent_age + 20 then
    ([], ["Parent " ++ parent_name ++ " very old at child\x27s birth: age " ++
      toString parent_age_at_birth])
  else ([], [])

/-- `Validator._validate_parent_child`.  The Python method appends to the
caller-supplied `errors` / `warnings` lists; the appended strings do not
depend on the lists themselves, so the embedding returns just the strings
this call appends. -/
def validateParentChild (v : Validator) (parent_name : String)
    (parent_birth_year child_birth_year parent_death_year : Option Int) :
    List String × List String :=
  match parent_birth_year, child_birth_year with
  | some pby, some cby =>
    let base := parentAgeEW v parent_name (cby - pby)
    match parent_death_year with
    | some pdy =>
      if cby > pdy + 1 then
        (base.1 ++ ["Child born in " ++ toString cby ++ ", but parent " ++ parent_name ++
          " died in " ++ toString pdy], base.2)
      else base
    | none => base
  | _, _ => ([], [])

/-- Subject years as computed at the top of `validate_extracted_data`. -/
def subjectBirthYear (data : ExtractedData) : Option Int :=
  getYearVal data.birth_date data.birth_year

def subjectDeathYear (data : ExtractedData) : Option Int :=
  getYearVal data.death_date data.death_year

/-- The lifespan checks of `validate_extracted_data` (lines 56-63). -/
def lifespanChecks (v : Validator) (birth_year death_year : Option Int) :
    List String × List String :=
  if intTruthy birth_year ∧ intTruthy death_year then
    let lifespan := death_year.getD 0 - birth_year.getD 0
    if lifespan < 0 then
      (["Death year (" ++ toString (death_year.getD 0) ++ ") before birth year (" ++
        toString (birth_year.getD 0) ++ ")"], [])
    else if lifespan > v.max_lifespan then
      ([], ["Unusually long lifespan: " ++ toString lifespan ++ " years"])
    else if lifespan < 1 then
      ([], ["Very short lifespan: " ++ toString lifespan ++ " years"])
    else ([], [])
  else ([], [])

/-- The spouse age-gap warnings (lines 87-93). -/
def spouseChecks (birth_year : Option Int) (spouse : PersonReference) : List String :=
  if intTruthy birth_year ∧ intTruthy spouse.approximate_birth_year then
    let age_gap := (birth_year.getD 0 - (spouse.approximate_birth_year.getD 0)).natAbs
    if age_gap > 30 then
      ["Large age gap with spouse " ++ spouse.name ++ ": " ++ toString age_gap ++ " years"]
    else []
  else []

/-- The event chronology errors (lines 96-106). -/
def eventChecks (birth_year death_year : Option Int) (ev : ExtractedEvent) : List String :=
  let event_year := getYearVal ev.event_date ev.event_year
  if intTruthy event_year ∧ intTruthy birth_year then
    (if event_year.getD 0 < birth_year.getD 0 then
      ["Event \x27" ++ ev.event_type ++ "\x27 in " ++ toString (event_year.getD 0) ++
        " before birth (" ++ toString (birth_year.getD 0) ++ ")"]
    else []) ++
    (if intTruthy death_year ∧ event_year.getD 0 > death_year.getD 0 then
      ["Event \x27" ++ ev.event_type ++ "\x27 in " ++ toString (event_year.getD 0) ++
        " after death (" ++ toString (death_year.getD 0) ++ ")"]
    else [])
  else []

/-- `Validator.validate_extracted_data`.  The source accumulates `errors`
and `warnings` imperatively across the lifespan check and the parent /
child / spouse / event loops; every appended string is independent of the
accumulator, so the embedding concatenates the per-phase contributions in
the same order. -/
def validate_extracted_data (v : Validator) (data : ExtractedData) : ValidationResult :=
  let birth_year := subjectBirthYear data
  let death_year := subjectDeathYear data
  let parentEW := data.parents.map (fun parent =>
    validateParentChild v parent.name parent.approximate_birth_year birth_year none)
  let childEW := data.children.map (fun child =>
    validateParentChild v (data.given_name ++ " " ++ data.surname) birth_year
      child.approximate_birth_year death_year)
  let errors := (lifespanChecks v birth_year death_year).1 ++
    parentEW.flatMap (fun x => x.1) ++ childEW.flatMap (fun x => x.1) ++
    data.events.flatMap (eventChecks birth_year death_year)
  let warnings := (lifespanChecks v birth_year death_year).2 ++
    parentEW.flatMap (fun x => x.2) ++ childEW.flatMap (fun x => x.2) ++
    data.spouses.flatMap (spouseChecks birth_year)
  { is_valid := errors.isEmpty, errors := errors, warnings := warnings }

/-- `Validator.validate_person_reference` (the real code reads the current
year from the wall clock via `date.today().year`; it is a parameter here). -/
def validate_person_reference (currentYear : Int) (reference : PersonReference) :
    ValidationResult :=
  let nameErrors : List String :=
    if reference.name.length = 0 ∨ (stripBoth reference.name.toList).length = 0 then
      ["Person reference has empty name"]
    else []
  let yearEW : List String × List String :=
    if intTruthy reference.approximate_birth_year then
      let y := reference.approximate_birth_year.getD 0
      ((if y > currentYear then
          ["Birth year " ++ toString y ++ " is in the future"] else []),
       (if y < 1500 then
          ["Very old birth year: " ++ toString y] else []))
    else ([], [])
  let errors := nameErrors ++ yearEW.1
  { is_valid := errors.isEmpty, errors := errors, warnings := yearEW.2 }

/-! ### The validate-and-correct loop (`genealogy_service._validate_and_correct`)

The Correction Oracle is a parameter `correct` taking the current facts and
the current error strings (the biography is a fixed additional argument in
the source and plays no role in control flow).  The loop returns, besides
the facts and the final result, the number of oracle calls performed.  The
embedding is a total function: the loop cannot raise. -/

def correctionLoop (v : Validator)
    (correct : ExtractedData → List String → ExtractedData) :
    Nat → ExtractedData → ValidationResult → ExtractedData × ValidationResult × Nat
  | 0, cur, validation => (cur, validation, 0)
  | n + 1, cur, validation =>
    let next := correct cur validation.errors
    let validation2 := validate_extracted_data v next
    if validation2.is_valid then (next, validation2, 1)
    else
      let r := correctionLoop v correct n next validation2
      (r.1, r.2.1, r.2.2 + 1)

/-- `GenealogyService._validate_and_correct`. -/
def validate_and_correct (v : Validator)
    (correct : ExtractedData → List String → ExtractedData)
    (max_attempts : Nat) (extracted : ExtractedData) :
    ExtractedData × ValidationResult × Nat :=
  let validation := validate_extracted_data v extracted
  if validation.is_valid then (extracted, validation, 0)
  else correctionLoop v correct max_attempts extracted validation

/-- The sequence of corrected fact sets the loop walks through:
entry `0` is the input, entry `i+1` is the oracle output on entry `i` and
the errors of its validation. -/
def correctionChain (v : Validator)
    (correct : ExtractedData → List String → ExtractedData)
    (extracted : ExtractedData) : Nat → ExtractedData
  | 0 => extracted
  | i + 1 =>
    let cur := correctionChain v correct extracted i
    correct cur (validate_extracted_data v cur).errors

/-- A concrete fact set whose death year precedes its birth year; used as
the never-valid oracle output in the correction-loop witness. -/
def c4BadFacts : ExtractedData :=
  { given_name := "A", surname := "B", birth_year := some 1950,
    death_year := some 1940 }

/-- Concrete data sets used in the validation claim and witnesses. -/
def refParent1850 : PersonReference :=
  { name := "P Q", relationship := RelationshipType.parent,
    approximate_birth_year := some 1850 }

def refParent1945 : PersonReference :=
  { name := "P Q", relationship := RelationshipType.parent,
    approximate_birth_year := some 1945 }

def dataOldParent : ExtractedData :=
  { given_name := "A", surname := "B", birth_year := some 1950,
    parents := [refParent1850] }

def dataYoungParent : ExtractedData :=
  { given_name := "A", surname := "B", birth_year := some 1950,
    parents := [refParent1945] }

def dataDeathBeforeBirth : ExtractedData :=
  { given_name := "A", surname := "B", birth_year := some 1950,
    death_year := some 1940 }

/-- Substring test used to state "an error mentioning …". -/
def startsWithL : List Char → List Char → Bool
  | [], _ => true
  | _ :: _, [] => false
  | a :: as, b :: bs => a = b ∧ startsWithL as bs

def hasSubL (needle : List Char) : List Char → Bool
  | [] => startsWithL needle []
  | h@(_ :: rest) => startsWithL needle h ∨ hasSubL needle rest

/-- Does `hay` contain `needle` as a (contiguous) substring? -/
def mentions (needle hay : String) : Bool :=
  hasSubL needle.toList hay.toList

/-! ### The person store (`persistence/repositories.py`, `tables.py`)

Person UUIDs are modelled as `Nat`; creation order supplies fresh ids via
`Store.nextId` (modelling `uuid4` freshness).  `birth_date` / `death_date`
are modelled by their year (only `.year` and presence are consumed).  The
`added_at` timestamp of a queue entry is modelled by a strictly increasing
insertion counter. -/

structure PersonRec where
  id : Nat
  status : PersonStatus := PersonStatus.pending
  given_name : String
  surname : String
  maiden_name : Option String := none
  nickname : Option String := none
  gender : Gender := Gender.unknown
  birth_year : Option Int := none
  birth_place : Option String := none
  death_year : Option Int := none
  death_place : Option String := none
  biography : Option String := none
  generation : Int := 0
  deriving Repr, DecidableEq

structure QueueEntry where
  person_id : Nat
  priority : Int
  added_at : Nat
  deriving Repr, DecidableEq

structure Store where
  persons : List PersonRec := []
  childLinks : List (Nat × Nat) := []
  spouseLinks : List (Nat × Nat) := []
  queue : List QueueEntry := []
  queueCounter : Nat := 0
  nextId : Nat := 0
  deriving Repr, DecidableEq

/-- Decidable equality of fallible results, so counterexamples evaluate. -/
instance {e a : Type} [DecidableEq e] [DecidableEq a] : DecidableEq (Except e a) :=
  fun x y =>
  match x, y with
  | Except.ok u, Except.ok v =>
    if h : u = v then Decidable.isTrue (by rw [h])
    else Decidable.isFalse (fun he => h (Except.ok.inj he))
  | Except.error u, Except.error v =>
    if h : u = v then Decidable.isTrue (by rw [h])
    else Decidable.isFalse (fun he => h (Except.error.inj he))
  | Except.ok _, Except.error _ => Decidable.isFalse (fun he => Except.noConfusion he)
  | Except.error _, Except.ok _ => Decidable.isFalse (fun he => Except.noConfusion he)

/-- `PersonRepository.get_by_id`. -/
def getById (st : Store) (pid : Nat) : Option PersonRec :=
  st.persons.find? (fun p => p.id = pid)

/-- `PersonRepository.create`. -/
def createPerson (st : Store) (p : PersonRec) : Store :=
  { st with persons := st.persons ++ [p] }

/-- `PersonRepository.update` restricted to the fields a call sets; a
missing id changes nothing, as in the source. -/
def updatePerson (st : Store) (pid : Nat) (f : PersonRec → PersonRec) : Store :=
  { st with persons := st.persons.map (fun p => if p.id = pid then f p else p) }

/-- `PersonRepository.delete` (does not touch links, as documented). -/
def deletePerson (st : Store) (pid : Nat) : Store :=
  { st with persons := st.persons.filter (fun p => p.id ≠ pid) }

/-- `ChildLinkRepository.exists`. -/
def childExists (st : Store) (parent child : Nat) : Bool :=
  (parent, child) ∈ st.childLinks

/-- `ChildLinkRepository.create`. -/
def createChildLink (st : Store) (parent child : Nat) : Store :=
  { st with childLinks := st.childLinks ++ [(parent, child)] }

/-- `ChildLinkRepository.get_children`. -/
def getChildren (st : Store) (parent : Nat) : List Nat :=
  (st.childLinks.filter (fun l => l.1 = parent)).map (fun l => l.2)

/-- `ChildLinkRepository.get_parents`. -/
def getParents (st : Store) (child : Nat) : List Nat :=
  (st.childLinks.filter (fun l => l.2 = child)).map (fun l => l.1)

/-- `ChildLinkRepository.get_parent_count`. -/
def getParentCount (st : Store) (child : Nat) : Nat :=
  (st.childLinks.filter (fun l => l.2 = child)).length

/-- `ChildLinkRepository.delete`: the table's composite primary key admits
at most one matching row, so a filter removes exactly it. -/
def deleteChildLink (st : Store) (parent child : Nat) : Store :=
  { st with childLinks := st.childLinks.filter (fun l => l ≠ (parent, child)) }

/-- `ChildLinkRepository.reassign_parent`. -/
def reassignParent (st : Store) (old new child : Nat) : Store :=
  if childExists st new child then deleteChildLink st old child
  else if childExists st old child then
    createChildLink (deleteChildLink st old child) new child
  else st

/-- `ChildLinkRepository.reassign_all_parent_links` (snapshot of the child
list taken before the loop, as in the source). -/
def reassignAllParentLinks (st : Store) (old new : Nat) : Store :=
  (getChildren st old).foldl (fun s c => reassignParent s old new c) st

/-- `ChildLinkRepository.reassign_all_child_links`. -/
def reassignAllChildLinks (st : Store) (old new : Nat) : Store :=
  (getParents st old).foldl
    (fun s q =>
      if childExists s q new then deleteChildLink s q old
      else createChildLink (deleteChildLink s q old) q new)
    st

/-- Spouse links are stored with the smaller id first (`str(uuid)` ordering
in the source; numeric ordering in the model). -/
def spouseCanon (a b : Nat) : Nat × Nat :=
  if a < b then (a, b) else (b, a)

/-- `SpouseLinkRepository.exists`. -/
def spouseExists (st : Store) (a b : Nat) : Bool :=
  spouseCanon a b ∈ st.spouseLinks

/-- `SpouseLinkRepository.create`. -/
def createSpouseLink (st : Store) (a b : Nat) : Store :=
  { st with spouseLinks := st.spouseLinks ++ [spouseCanon a b] }

/-- `SpouseLinkRepository.get_spouses` (both orientations, in row order). -/
def getSpouses (st : Store) (pid : Nat) : List Nat :=
  (st.spouseLinks.filter (fun l => l.1 = pid)).map (fun l => l.2) ++
    (st.spouseLinks.filter (fun l => l.2 = pid)).map (fun l => l.1)

/-- `SpouseLinkRepository._delete_all_for_person`. -/
def deleteSpousesFor (st : Store) (pid : Nat) : Store :=
  { st with spouseLinks := st.spouseLinks.filter (fun l => l.1 ≠ pid ∧ l.2 ≠ pid) }

/-- `SpouseLinkRepository.reassign_spouse_links`. -/
def reassignSpouseLinks (st : Store) (old new : Nat) : Store :=
  let st1 := (getSpouses st old).foldl
    (fun s sid =>
      if sid = new then s
      else if spouseExists s new sid then s
      else createSpouseLink s new sid)
    st
  deleteSpousesFor st1 old

/-- `QueueRepository.enqueue`: at most one entry per person (database
`unique` constraint on `person_id`); re-enqueuing updates the priority only
when the new one is strictly higher. -/
def enqueue (st : Store) (pid : Nat) (priority : Int) : Store :=
  match st.queue.find? (fun e => e.person_id = pid) with
  | some e =>
    if priority > e.priority then
      { st with queue := st.queue.map (fun x =>
          if x.person_id = pid then { x with priority := priority } else x) }
    else st
  | none =>
    let entry : QueueEntry :=
      { person_id := pid, priority := priority, added_at := st.queueCounter }
    { st with queue := st.queue ++ [entry], queueCounter := st.queueCounter + 1 }

/-- Is `a` ordered strictly before `b` under
`ORDER BY priority DESC, added_at ASC`? -/
def betterEntry (a b : QueueEntry) : Bool :=
  b.priority < a.priority ∨ (a.priority = b.priority ∧ a.added_at < b.added_at)

/-- The row `ORDER BY priority DESC, added_at ASC LIMIT 1` returns. -/
def dequeueChoice (q : List QueueEntry) : Option QueueEntry :=
  q.foldl
    (fun best e =>
      match best with
      | none => some e
      | some b => if betterEntry e b then some e else some b)
    none

/-- `QueueRepository.dequeue`. -/
def dequeue (st : Store) : Option Nat × Store :=
  match dequeueChoice st.queue with
  | none => (none, st)
  | some e => (some e.person_id, { st with queue := st.queue.filter (fun x => x ≠ e) })

/-- The queue-touching repository operations, for invariant statements. -/
inductive QOp
  | enq (pid : Nat) (priority : Int)
  | deq
  deriving Repr, DecidableEq

def applyQOp (st : Store) : QOp → Store
  | QOp.enq pid p => enqueue st pid p
  | QOp.deq => (dequeue st).2

def applyQOps (ops : List QOp) : Store :=
  ops.foldl applyQOp {}

/-- Queue well-formedness: one entry per person, distinct insertion times,
all below the counter. -/
def QueueWF (st : Store) : Prop :=
  (st.queue.map QueueEntry.person_id).Nodup ∧
  (st.queue.map QueueEntry.added_at).Nodup ∧
  ∀ e ∈ st.queue, e.added_at < st.queueCounter

instance (st : Store) : Decidable (QueueWF st) := by
  unfold QueueWF
  exact inferInstance

def qe15 : QueueEntry := { person_id := 1, priority := 5, added_at := 0 }

def qe27 : QueueEntry := { person_id := 2, priority := 7, added_at := 1 }

def c8St : Store := { queue := [qe15, qe27], queueCounter := 2 }

def c8StDeq : Store := { queue := [qe15], queueCounter := 2 }

/-! ### Reference resolution (`genealogy_service._resolve_person_reference`) -/

/-- The Dedup Oracle's structured reply (`dedup_agent.DedupResult`). -/
structure DedupResult where
  is_duplicate : Bool
  matched_person_id : Option String := none
  confidence : ℚ := 0
  reasoning : String := ""
  deriving Repr, DecidableEq

/-- `uuid.UUID(s)` modelled over decimal numerals: returns the id when `s`
is a nonempty digit string, `none` (a `ValueError` in the source, caught by
the caller) otherwise. -/
def parsePersonId (s : String) : Option Nat :=
  if s.length ≠ 0 ∧ s.toList.all (fun c => '0' ≤ c ∧ c ≤ '9') then
    some (s.toList.foldl (fun n c => n * 10 + (c.toNat - 48)) 0)
  else none

/-- `date(y, 1, 1)` for the pending person's birth date: raises
`ValueError` outside `1 ≤ y ≤ 9999` (`datetime.MINYEAR` / `MAXYEAR`);
the `if reference.approximate_birth_year:` truthiness guard means year `0`
yields no date at all. -/
def mkBirthDate (y : Option Int) : Except String (Option Int) :=
  if intTruthy y then
    let yy := y.getD 0
    if 1 ≤ yy ∧ yy ≤ 9999 then Except.ok (some yy)
    else Except.error ("year " ++ toString yy ++ " is out of range")
  else Except.ok none

/-- `PersonRepository.search_similar`: given name contained
case-insensitively (SQL `ilike %given%`), surname or maiden name matching
exactly, birth year within ±3 when requested (rows without a birth date are
excluded by the `strftime` comparison; the string comparison coincides with
the numeric one on four-digit years). -/
def surnameConds (p : PersonRec) (surname : String) (maiden_name : Option String) : Bool :=
  if optStrTruthy maiden_name then
    decide (p.surname = surname) || decide (p.maiden_name = some surname) ||
      decide (p.surname = maiden_name.getD "") ||
      decide (p.maiden_name = some (maiden_name.getD ""))
  else
    decide (p.surname = surname) || decide (p.maiden_name = some surname)

/-- Birth-year window filter of the similarity searches; rows without a
birth date are excluded when a year is requested. -/
def yearWindow (w : Int) (birth_year py : Option Int) : Bool :=
  match birth_year with
  | some y =>
    match py with
    | some p => decide (y - w ≤ p) && decide (p ≤ y + w)
    | none => false
  | none => true

def search_similar (st : Store) (given_name surname : String)
    (birth_year : Option Int) (maiden_name : Option String) : List PersonRec :=
  st.persons.filter (fun p =>
    surnameConds p surname maiden_name &&
    hasSubL (pyLower given_name).toList (pyLower p.given_name).toList &&
    yearWindow 3 birth_year p.birth_year)

/-- `PersonRepository.search_by_given_name_and_birth_year` (±5 window). -/
def search_by_given_name_and_birth_year (st : Store) (given_name : String)
    (birth_year : Option Int) : List PersonRec :=
  st.persons.filter (fun p =>
    hasSubL (pyLower given_name).toList (pyLower p.given_name).toList &&
    yearWindow 5 birth_year p.birth_year)

/-- Append the broader candidates whose ids are not yet present
(lines 683-688). -/
def mergeCandidates (cands broader : List PersonRec) : List PersonRec :=
  broader.foldl
    (fun acc bc => if acc.any (fun c => c.id = bc.id) then acc else acc ++ [bc])
    cands

/-- The per-candidate score with the spouse-surname bump (lines 694-716):
when the base score is below 0.5 but the given name matches, a recorded
spouse whose surname equals the reference's surname lifts the score to at
least 0.6. -/
def candidateScore (st : Store) (reference : PersonReference)
    (given_name surname : String) (candidate : PersonRec) : ℚ :=
  let base := heuristic_match_score reference.name reference.approximate_birth_year
    (candidate.given_name ++ " " ++ candidate.surname) candidate.birth_year
  if base < 1/2 ∧ pyLower candidate.given_name = pyLower given_name then
    if (getSpouses st candidate.id).any (fun sid =>
        match getById st sid with
        | some sp => pyLower sp.surname = pyLower surname
        | none => false) then
      pyMax base (3/5)
    else base
  else base

/-- Stable descending insertion by score (Python's stable
`sort(key=score, reverse=True)`). -/
def insertDesc (x : PersonRec × ℚ) : List (PersonRec × ℚ) → List (PersonRec × ℚ)
  | [] => [x]
  | y :: ys => if y.2 ≤ x.2 ∧ y.2 ≠ x.2 then x :: y :: ys
      else if x.2 = y.2 then x :: y :: ys
      else y :: insertDesc x ys

def sortByScoreDesc (l : List (PersonRec × ℚ)) : List (PersonRec × ℚ) :=
  l.foldr insertDesc []

/-- The good candidates of a resolution attempt: scored, filtered at the
0.5 acceptance threshold, sorted by descending score. -/
def goodCandidates (st : Store) (reference : PersonReference)
    (given_name surname : String) (cands : List PersonRec) : List (PersonRec × ℚ) :=
  sortByScoreDesc ((cands.map (fun c =>
    (c, candidateScore st reference given_name surname c))).filter
      (fun x => 1/2 ≤ x.2))

/-- All candidates a resolution attempt considers (both searches, deduped). -/
def resolveCandidates (st : Store) (reference : PersonReference)
    (given_name surname : String) (maiden_name : Option String) : List PersonRec :=
  mergeCandidates
    (search_similar st given_name surname reference.approximate_birth_year maiden_name)
    (search_by_given_name_and_birth_year st given_name reference.approximate_birth_year)

/-- The creation of a new Pending person (lines 813-830); `Except.error`
models the `ValueError` that `date(y, 1, 1)` raises on a year outside
`[1, 9999]`. -/
def createPendingPerson (st : Store) (reference : PersonReference)
    (given_name surname : String) (maiden_name : Option String)
    (generation : Int) : Except String (Option Nat × Store) :=
  match mkBirthDate reference.approximate_birth_year with
  | Except.error e => Except.error e
  | Except.ok bd =>
    let newPerson : PersonRec :=
      { id := st.nextId, status := PersonStatus.pending, given_name := given_name,
        surname := surname, maiden_name := maiden_name, gender := reference.gender,
        birth_year := bd, generation := generation }
    Except.ok (some st.nextId,
      { createPerson st newPerson with nextId := st.nextId + 1 })

/-- The good candidates of a resolution attempt for a reference, from the
parsed name fields. -/
def resolveGood (st : Store) (reference : PersonReference) : List (PersonRec × ℚ) :=
  goodCandidates st reference (parse_name reference.name).given_name
    (parse_name reference.name).surname
    (resolveCandidates st reference (parse_name reference.name).given_name
      (parse_name reference.name).surname (parse_name reference.name).maiden_name)

/-- The candidate ids presented to the Dedup Oracle (top 5 by score). -/
def resolvePresentedIds (st : Store) (reference : PersonReference) : List Nat :=
  ((resolveGood st reference).take 5).map (fun x => x.1.id)

/-- `GenealogyService._resolve_person_reference`.  The Dedup Oracle is the
parameter `oracle`, receiving the ids of the (at most 5) presented
candidates; prompt building, cost tracking and the shared-event analysis
side call (which touches only events/notes) are outside the modelled
state. -/
def resolve (oracle : List Nat → DedupResult) (currentYear : Int) (st : Store)
    (reference : PersonReference) (generation : Int) :
    Except String (Option Nat × Store) :=
  if (validate_person_reference currentYear reference).is_valid = false then
    Except.ok (none, st)
  else if (resolveGood st reference).isEmpty then
    createPendingPerson st reference (parse_name reference.name).given_name
      (parse_name reference.name).surname (parse_name reference.name).maiden_name
      generation
  else
    let r := oracle (resolvePresentedIds st reference)
    if r.is_duplicate ∧ optStrTruthy r.matched_person_id then
      match parsePersonId (r.matched_person_id.getD "") with
      | some matched_id => Except.ok (some matched_id, st)
      | none =>
        createPendingPerson st reference (parse_name reference.name).given_name
          (parse_name reference.name).surname (parse_name reference.name).maiden_name
          generation
    else
      createPendingPerson st reference (parse_name reference.name).given_name
        (parse_name reference.name).surname (parse_name reference.name).maiden_name
        generation

/-! ### Merging (`genealogy_service._merge_persons`,
`_check_and_merge_duplicate_parents`) -/

/-- `GenealogyService._merge_persons`.  If either record is missing the
call logs and changes nothing.  The queue is deliberately untouched (lines
1169-1171 of the source: "QueueRepository doesn't have a remove method"). -/
def merge_persons (st : Store) (keep_id merge_id : Nat) : Store :=
  match getById st keep_id, getById st merge_id with
  | some keep_person, some merge_person =>
    let st1 := reassignAllParentLinks st merge_id keep_id
    let st2 := reassignAllChildLinks st1 merge_id keep_id
    let st3 := reassignSpouseLinks st2 merge_id keep_id
    let st4 := updatePerson st3 keep_id (fun k =>
      let k := if ¬ optStrTruthy keep_person.maiden_name ∧
          optStrTruthy merge_person.maiden_name then
        { k with maiden_name := merge_person.maiden_name } else k
      let k := if ¬ optStrTruthy keep_person.birth_place ∧
          optStrTruthy merge_person.birth_place then
        { k with birth_place := merge_person.birth_place } else k
      let k := if keep_person.death_year = none ∧ merge_person.death_year ≠ none then
        { k with death_year := merge_person.death_year } else k
      let k := if ¬ optStrTruthy keep_person.death_place ∧
          optStrTruthy merge_person.death_place then
        { k with death_place := merge_person.death_place } else k
      let k := if ¬ optStrTruthy keep_person.biography ∧
          optStrTruthy merge_person.biography then
        { k with biography := merge_person.biography, status := merge_person.status }
      else k
      k)
    deletePerson st4 merge_id
  | _, _ => st

/-- The surname-compatibility test of `_check_and_merge_duplicate_parents`
(lines 1230-1271): direct match, maiden-name match either way, or a
recorded spouse of either party carrying the other's surname. -/
def dupSurnamesMatch (st : Store) (existing_parent new_parent : PersonRec)
    (existing_parsed new_parsed : ParsedName) : Bool :=
  decide (pyLower existing_parsed.surname = pyLower new_parsed.surname) ||
  (match existing_parent.maiden_name with
   | some m => optStrTruthy (some m) && decide (pyLower m = pyLower new_parsed.surname)
   | none => false) ||
  (match new_parent.maiden_name with
   | some m => optStrTruthy (some m) && decide (pyLower m = pyLower existing_parsed.surname)
   | none => false) ||
  (getSpouses st existing_parent.id).any (fun sid =>
    match getById st sid with
    | some sp => decide (pyLower sp.surname = pyLower new_parsed.surname)
    | none => false) ||
  (getSpouses st new_parent.id).any (fun sid =>
    match getById st sid with
    | some sp => decide (pyLower sp.surname = pyLower existing_parsed.surname)
    | none => false)

/-- The full duplicate-parent condition (gender, parsed given names,
surname compatibility, birth years within 5 when both known). -/
def isDuplicateParent (st : Store) (existing_parent new_parent : PersonRec) : Bool :=
  decide (existing_parent.gender = new_parent.gender) &&
  decide (pyLower (parse_name (existing_parent.given_name ++ " " ++
      existing_parent.surname)).given_name
    = pyLower (parse_name (new_parent.given_name ++ " " ++
      new_parent.surname)).given_name) &&
  dupSurnamesMatch st existing_parent new_parent
    (parse_name (existing_parent.given_name ++ " " ++ existing_parent.surname))
    (parse_name (new_parent.given_name ++ " " ++ new_parent.surname)) &&
  (match existing_parent.birth_year, new_parent.birth_year with
   | some a, some b => decide ((a - b).natAbs ≤ 5)
   | _, _ => true)

/-- The scan over the existing parents (first match merges, as in the
source loop); missing parent records are skipped. -/
def scanDuplicateParents (st : Store) (new_parent_id : Nat) (new_parent : PersonRec) :
    List Nat → Nat × Store
  | [] => (new_parent_id, st)
  | ep :: rest =>
    match getById st ep with
    | none => scanDuplicateParents st new_parent_id new_parent rest
    | some existing_parent =>
      if isDuplicateParent st existing_parent new_parent then
        if optStrTruthy new_parent.biography ∧
            ¬ optStrTruthy existing_parent.biography then
          (new_parent_id, merge_persons st new_parent_id ep)
        else
          (ep, merge_persons st ep new_parent_id)
      else scanDuplicateParents st new_parent_id new_parent rest

/-- `GenealogyService._check_and_merge_duplicate_parents`. -/
def check_and_merge_duplicate_parents (st : Store) (child_id new_parent_id : Nat) :
    Nat × Store :=
  let existing_parent_ids := getParents st child_id
  if existing_parent_ids.length < 2 then (new_parent_id, st)
  else
    match getById st new_parent_id with
    | none => (new_parent_id, st)
    | some new_parent =>
      scanDuplicateParents st new_parent_id new_parent existing_parent_ids

/-! ### The parent-reference pipeline (`_process_references`, lines 564-586)
and the scheduler cycle (`process_next`, lines 182-218) -/

/-- Queue a freshly linked parent: pending persons are enqueued at
priority 1 and marked Queued. -/
def queuePendingParent (st : Store) (pid : Nat) : Store :=
  match getById st pid with
  | some p =>
    if p.status = PersonStatus.pending then
      updatePerson (enqueue st pid 1) pid
        (fun q => { q with status := PersonStatus.queued })
    else st
  | none => st

/-- The body of the parent loop of `_process_references` after resolution:
skip when the link exists; at 2 or more recorded parents run the merge
engine and skip when the (possibly merged) link exists; otherwise create
the link and queue the parent. -/
def addParentStep (st : Store) (childId pid : Nat) : Store :=
  if childExists st pid childId then st
  else if 2 ≤ getParentCount st childId then
    let r := check_and_merge_duplicate_parents st childId pid
    if childExists r.2 r.1 childId then r.2
    else queuePendingParent (createChildLink r.2 r.1 childId) r.1
  else queuePendingParent (createChildLink st pid childId) pid

/-- A whole resolved-parent-reference step: resolve, then link/queue. -/
def process_parent_ref (oracle : List Nat → DedupResult) (currentYear : Int)
    (st : Store) (subject : PersonRec) (reference : PersonReference) :
    Except String Store :=
  match resolve oracle currentYear st reference (subject.generation - 1) with
  | Except.error e => Except.error e
  | Except.ok (none, st1) => Except.ok st1
  | Except.ok (some pid, st1) => Except.ok (addParentStep st1 subject.id pid)

/-- Outcome of one scheduler cycle (`process_next`): a person dequeued and
marked Processing, a dequeued id with no person record (error logged,
`None` returned), or the fallback to the pending / forest-fire / seed path
(randomised, outside the modelled fragment). -/
inductive NextOutcome
  | found (pid : Nat)
  | notFound
  | fallback
  deriving Repr, DecidableEq

/-- The queue path of `GenealogyService.process_next`. -/
def process_next (st : Store) : NextOutcome × Store :=
  match dequeue st with
  | (some pid, st1) =>
    match getById st1 pid with
    | none => (NextOutcome.notFound, st1)
    | some _ =>
      (NextOutcome.found pid,
        updatePerson st1 pid (fun p => { p with status := PersonStatus.processing }))
  | (none, st1) => (NextOutcome.fallback, st1)

/-- The distinct parent ids of a child. -/
def distinctParents (st : Store) (child : Nat) : Finset Nat :=
  (getParents st child).toFinset

/-! ### Concrete oracles, references and stores for counterexamples and
witnesses -/

/-- An oracle that never confirms a duplicate. -/
def falseOracle : List Nat → DedupResult :=
  fun _ => { is_duplicate := false }

/-- An oracle that confirms a duplicate with a fixed matched-id string. -/
def dupOracle (s : String) : List Nat → DedupResult :=
  fun _ => { is_duplicate := true, matched_person_id := some s }

def refWilliam1920 : PersonReference :=
  { name := "William Smith", relationship := RelationshipType.parent,
    approximate_birth_year := some 1920 }

def refJohn1400 : PersonReference :=
  { name := "John Smith", relationship := RelationshipType.parent,
    approximate_birth_year := some 1400 }

def refJohnNeg1 : PersonReference :=
  { name := "John Smith", relationship := RelationshipType.parent,
    approximate_birth_year := some (-1) }

def refBlankName : PersonReference :=
  { name := "   ", relationship := RelationshipType.parent }

def refFuture : PersonReference :=
  { name := "John Smith", relationship := RelationshipType.parent,
    approximate_birth_year := some 3000 }

/-- The Pending person that resolving `refJohn1400` on an empty store
creates. -/
def c3NewPerson : PersonRec :=
  { id := 0, status := PersonStatus.pending, given_name := "John",
    surname := "Smith", birth_year := some 1400 }

def c3Store1 : Store :=
  { persons := [c3NewPerson], nextId := 1 }

/-- The record a successful `createPendingPerson` appends. -/
def pendingRec (st : Store) (ref : PersonReference) (generation : Int)
    (bd : Option Int) : PersonRec :=
  { id := st.nextId, status := PersonStatus.pending,
    given_name := (parse_name ref.name).given_name,
    surname := (parse_name ref.name).surname,
    maiden_name := (parse_name ref.name).maiden_name,
    gender := ref.gender, birth_year := bd, generation := generation }

def createdStore (st : Store) (ref : PersonReference) (generation : Int)
    (bd : Option Int) : Store :=
  { st with
    persons := st.persons ++ [pendingRec st ref generation bd],
    nextId := st.nextId + 1 }

/-- A stored John Smith born in year 1 (the earliest representable date),
within the ±3 search window of a reference year of −1. -/
def personJohnY1 : PersonRec :=
  { id := 7, given_name := "John", surname := "Smith", birth_year := some 1,
    status := PersonStatus.complete }

def storeJohnY1 : Store :=
  { persons := [personJohnY1], nextId := 8 }

/-- The subject used by the resolution witnesses. -/
def subjectS : PersonRec :=
  { id := 50, given_name := "S", surname := "T", generation := 3,
    status := PersonStatus.complete }

/-- The end-to-end scenario store: just the subject, next fresh id 51. -/
def stW : Store := { persons := [subjectS], nextId := 51 }

def williamRec : PersonRec :=
  { id := 51, status := PersonStatus.queued, given_name := "William",
    surname := "Smith", birth_year := some 1920, generation := 2 }

def stWFinal : Store :=
  { persons := [subjectS, williamRec], childLinks := [(51, 50)],
    queue := [{ person_id := 51, priority := 1, added_at := 0 }],
    queueCounter := 1, nextId := 52 }


/-- The merge-side-effect scenario: child `1` has parents `2` and `3`;
person `4` is a duplicate of `2` (same gender, given name and surname);
`5`/`6` are recorded parents of `2` and `7`/`8` recorded parents of `4`,
with `5` and `7` carrying the same name and gender. -/
def mkMaleComplete (i : Nat) (g s : String) : PersonRec :=
  { id := i, given_name := g, surname := s, gender := Gender.male,
    status := PersonStatus.complete }

def c1Store0 : Store :=
  { persons := [mkMaleComplete 1 "X" "Smith", mkMaleComplete 2 "John" "Smith",
      { mkMaleComplete 3 "Mary" "Jones" with gender := Gender.female },
      mkMaleComplete 4 "John" "Smith", mkMaleComplete 5 "Sam" "Stone",
      mkMaleComplete 6 "Al" "Hill", mkMaleComplete 7 "Sam" "Stone",
      mkMaleComplete 8 "Bo" "Crag"],
    nextId := 9 }

/-- The stale-queue-entry scenario: two duplicate records, the second one
queued, then merged away. -/
def qe2 : QueueEntry := { person_id := 2, priority := 1, added_at := 0 }

def stM : Store :=
  { persons := [mkMaleComplete 1 "A" "B", mkMaleComplete 2 "A" "B"],
    queue := [qe2], queueCounter := 1, nextId := 3 }

def stMAfterDeq : Store :=
  { persons := [mkMaleComplete 1 "A" "B"], queue := [], queueCounter := 1,
    nextId := 3 }

/-- The parent-link additions, each processed through the reconcile step. -/
def c1Ops : List (Nat × Nat) := [(2, 5), (2, 6), (4, 7), (4, 8), (1, 2), (1, 3), (1, 4)]

def c1Final : Store :=
  c1Ops.foldl (fun s op => addParentStep s op.1 op.2) c1Store0

/-- The state just before the third parent of child `1` is processed. -/
def c1Pre : Store :=
  (c1Ops.take 6).foldl (fun s op => addParentStep s op.1 op.2) c1Store0

/-- The links of a given child. -/
def childLinksOf (st : Store) (c : Nat) : List (Nat × Nat) :=
  st.childLinks.filter (fun l => l.2 = c)

/-- Does some recorded existing parent of `c` trigger the duplicate-parent
condition against the new parent record `np`? -/
def hasDuplicateParentFor (st : Store) (c : Nat) (np : PersonRec) : Bool :=
  (getParents st c).any (fun ep =>
    match getById st ep with
    | some r => isDuplicateParent st r np
    | none => false)

theorem ite_ite_or {A B : Prop} [Decidable A] [Decidable B] (x : ℚ) :
    (if A then x else if B then x else 0) = if A ∨ B then x else 0 := by
  by_cases hA : A
  · simp [hA]
  · by_cases hB : B <;> simp [hA, hB]

theorem hm_name_score_eq_spec (p1 p2 : ParsedName) :
    hm_name_score p1 p2 = spec_name_score p1 p2 := by
  unfold hm_name_score spec_name_score
  by_cases hg : pyLower p1.given_name = pyLower p2.given_name
  · simp only [hg, if_pos rfl, ne_eq, not_true_eq_false, if_neg, if_false]
    by_cases hi : listsIntersect (all_surnames p1) (all_surnames p2) = true
    · simp [hi]
    · simp only [hi, if_false, Bool.false_eq_true]
      simp only [List.map_append, List.map_cons, List.map_nil, List.mem_append,
        List.mem_cons, List.mem_map, List.not_mem_nil, or_false, false_or]
      rw [ite_ite_or]
      simp
  · simp [hg]

theorem hm_year_score_eq_spec (y1 y2 : Option Int) :
    hm_year_score y1 y2 = spec_year_score (truthyYear y1) (truthyYear y2) := by
  rcases y1 with _ | a <;> rcases y2 with _ | b
  · simp [hm_year_score, truthyYear, spec_year_score, intTruthy]
  · simp [hm_year_score, truthyYear, spec_year_score, intTruthy]
  · by_cases ha : a = 0 <;>
      simp [hm_year_score, truthyYear, spec_year_score, intTruthy, ha]
  · by_cases ha : a = 0 <;> by_cases hb : b = 0 <;>
      simp [hm_year_score, truthyYear, spec_year_score, intTruthy, ha, hb]

theorem clamp_bounds (x : ℚ) : 0 ≤ pyMax 0 (pyMin x 1) ∧ pyMax 0 (pyMin x 1) ≤ 1 := by
  unfold pyMax pyMin
  split_ifs <;> constructor <;> linarith

theorem heuristic_eq_spec_truthy (n1 n2 : String) (y1 y2 : Option Int) :
    heuristic_match_score n1 y1 n2 y2
      = spec_match_score n1 (truthyYear y1) n2 (truthyYear y2) := by
  unfold heuristic_match_score spec_match_score
  simp only [hm_name_score_eq_spec, hm_year_score_eq_spec]

/-! ### Claim C5 -/

/-- C5 counterexample: the claim says `heuristic_match_score` equals the
specification's reference definition on *every* pair of (name, optional
birth year) inputs, with year contribution `+0.5` for an exact year match.
At birth year `0` (a legal `int` for the Python field) the source's
truthiness test `if new_birth_year and candidate_birth_year` discards the
years, so the code returns `0.5` where the reference definition returns
`1.0`. -/
theorem c5_counterexample_year_zero :
    heuristic_match_score "John Smith" (some 0) "John Smith" (some 0) = 1/2 ∧
    spec_match_score "John Smith" (some 0) "John Smith" (some 0) = 1 ∧
    heuristic_match_score "John Smith" (some 0) "John Smith" (some 0) ≠
      spec_match_score "John Smith" (some 0) "John Smith" (some 0) := by
  refine ⟨?_, ?_, ?_⟩ <;> with_unfolding_all decide

/-- C5 (amended): `heuristic_match_score` equals the specification's
reference definition provided a birth year is treated as known only when it
is present *and nonzero* (Python truthiness); the score is always within
`[0, 1]`; and the three concrete values demanded by the specification hold:
`score("John Smith",1950,"John Smith",1950) = 1`,
`score("John Smith",1950,"Mary Johnson",1950) = 0.5`,
`score("John Smith",1950,"John Smith",1980) = 0.5`. -/
theorem c5_heuristic_match_score_spec :
    (∀ (n1 n2 : String) (y1 y2 : Option Int),
      heuristic_match_score n1 y1 n2 y2
          = spec_match_score n1 (truthyYear y1) n2 (truthyYear y2) ∧
        0 ≤ heuristic_match_score n1 y1 n2 y2 ∧
        heuristic_match_score n1 y1 n2 y2 ≤ 1) ∧
    heuristic_match_score "John Smith" (some 1950) "John Smith" (some 1950) = 1 ∧
    heuristic_match_score "John Smith" (some 1950) "Mary Johnson" (some 1950) = 1/2 ∧
    heuristic_match_score "John Smith" (some 1950) "John Smith" (some 1980) = 1/2 := by
  refine ⟨fun n1 n2 y1 y2 => ⟨heuristic_eq_spec_truthy n1 n2 y1 y2, ?_, ?_⟩, ?_, ?_, ?_⟩
  · unfold heuristic_match_score
    split
    · norm_num
    · exact (clamp_bounds _).1
  · unfold heuristic_match_score
    split
    · norm_num
    · exact (clamp_bounds _).2
  all_goals with_unfolding_all decide

/-! ### Claim C6 -/

set_option maxHeartbeats 1000000 in
/-- C6: for every raw name string, `parse_name` (a total function — the
Python original raises no exceptions) splits the token list that remains
after maiden-name extraction, suffix extraction and whitespace collapse
exactly as specified: zero tokens give `given = surname = "Unknown"`; one
token gives that token as the given name and surname `"Unknown"`; two
tokens give (given, surname); three or more give the first token as given,
the last as surname, and everything between as middle names.  The concrete
specification examples `"John Smith"` and `"Mary Smith (née Jones)"` are
included. -/
theorem c6_parse_name_split_rule (raw : String) :
    (∀ m s, parse_name_pieces raw = ([], m, s) →
      parse_name raw = ⟨"Unknown", [], "Unknown", m, s⟩) ∧
    (∀ a m s, parse_name_pieces raw = ([a], m, s) →
      parse_name raw = ⟨a, [], "Unknown", m, s⟩) ∧
    (∀ a b m s, parse_name_pieces raw = ([a, b], m, s) →
      parse_name raw = ⟨a, [], b, m, s⟩) ∧
    (∀ a b c rest m s, parse_name_pieces raw = (a :: b :: c :: rest, m, s) →
      parse_name raw = ⟨a, (b :: c :: rest).dropLast,
        (b :: c :: rest).getLast (by simp), m, s⟩) ∧
    parse_name "John Smith" = ⟨"John", [], "Smith", none, []⟩ ∧
    parse_name "Mary Smith (née Jones)" = ⟨"Mary", [], "Smith", some "Jones", []⟩ := by
  refine ⟨?_, ?_, ?_, ?_, ?_, ?_⟩
  · intro m s h
    unfold parse_name
    rw [h]
    rfl
  · intro a m s h
    unfold parse_name
    rw [h]
    rfl
  · intro a b m s h
    unfold parse_name
    rw [h]
    rfl
  · intro a b c rest m s h
    unfold parse_name
    rw [h]
    rfl
  · with_unfolding_all decide
  · with_unfolding_all decide

set_option maxHeartbeats 1000000 in
/-- C6 witness: the split rule applied at concrete inputs — a single-token
raw name gets surname `"Unknown"`, and a three-token name splits into
given/middle/surname. -/
theorem c6_witness :
    parse_name "Anna" = ⟨"Anna", [], "Unknown", none, []⟩ ∧
    parse_name "John William Smith"
      = ⟨"John", ["William"], "Smith", none, []⟩ := by
  constructor
  · exact (c6_parse_name_split_rule "Anna").2.1 "Anna" none []
      (by with_unfolding_all decide)
  · exact (c6_parse_name_split_rule "John William Smith").2.2.2.1 "John" "William"
      "Smith" [] none [] (by with_unfolding_all decide)

/-! ### Substring lemmas for "an error mentioning …" statements -/

theorem startsWithL_self (n rest : List Char) : startsWithL n (n ++ rest) = true := by
  induction n with
  | nil => rfl
  | cons c cs ih => simp [startsWithL, ih]

theorem startsWithL_mono (n : List Char) :
    ∀ a b : List Char, startsWithL n a = true → startsWithL n (a ++ b) = true := by
  induction n with
  | nil => intro a b _; rfl
  | cons c cs ih =>
    intro a b h
    cases a with
    | nil => simp [startsWithL] at h
    | cons x xs =>
      simp [startsWithL] at h ⊢
      exact ⟨h.1, ih xs b h.2⟩

theorem hasSubL_mono_r (n : List Char) :
    ∀ a b : List Char, hasSubL n b = true → hasSubL n (a ++ b) = true := by
  intro a
  induction a with
  | nil => intro b h; simpa using h
  | cons c cs ih =>
    intro b h
    simp only [List.cons_append, hasSubL, Bool.decide_or, Bool.or_eq_true, decide_eq_true_eq]
    exact Or.inr (by simpa using ih b h)

theorem hasSubL_mono_l (n : List Char) :
    ∀ a b : List Char, hasSubL n a = true → hasSubL n (a ++ b) = true := by
  intro a
  induction a with
  | nil =>
    intro b h
    cases n with
    | nil =>
      cases b with
      | nil => exact h
      | cons x xs =>
        simp only [List.nil_append, hasSubL]
        simp [startsWithL]
    | cons c cs => simp [hasSubL, startsWithL] at h
  | cons c cs ih =>
    intro b h
    simp only [hasSubL, Bool.decide_or, Bool.or_eq_true, decide_eq_true_eq] at h
    rcases h with h | h
    · simp only [List.cons_append, hasSubL, Bool.decide_or, Bool.or_eq_true, decide_eq_true_eq]
      exact Or.inl (startsWithL_mono n _ _ h)
    · simp only [List.cons_append, hasSubL, Bool.decide_or, Bool.or_eq_true, decide_eq_true_eq]
      exact Or.inr (ih b h)

theorem toList_append (a b : String) : (a ++ b).toList = a.toList ++ b.toList := rfl

/-! ### Correction-loop lemmas -/

theorem correctionChain_shift (v : Validator)
    (correct : ExtractedData → List String → ExtractedData) (cur : ExtractedData) :
    ∀ i : Nat,
      correctionChain v correct (correct cur (validate_extracted_data v cur).errors) i
        = correctionChain v correct cur (i + 1) := by
  intro i
  induction i with
  | zero => rfl
  | succ j ih => simp only [correctionChain, ih]

theorem correctionLoop_never (v : Validator)
    (correct : ExtractedData → List String → ExtractedData)
    (hnv : ∀ f e, (validate_extracted_data v (correct f e)).is_valid = false) :
    ∀ (n : Nat) (cur : ExtractedData),
      correctionLoop v correct n cur (validate_extracted_data v cur)
        = (correctionChain v correct cur n,
           validate_extracted_data v (correctionChain v correct cur n), n) := by
  intro n
  induction n with
  | zero => intro cur; rfl
  | succ m ih =>
    intro cur
    simp only [correctionLoop, hnv, Bool.false_eq_true, if_false]
    rw [ih (correct cur (validate_extracted_data v cur).errors)]
    simp only [correctionChain_shift]

theorem correctionLoop_stop (v : Validator)
    (correct : ExtractedData → List String → ExtractedData) :
    ∀ (k n : Nat) (cur : ExtractedData), k < n →
      (∀ i, i ≤ k →
        (validate_extracted_data v (correctionChain v correct cur i)).is_valid = false) →
      (validate_extracted_data v (correctionChain v correct cur (k + 1))).is_valid = true →
      correctionLoop v correct n cur (validate_extracted_data v cur)
        = (correctionChain v correct cur (k + 1),
           validate_extracted_data v (correctionChain v correct cur (k + 1)), k + 1) := by
  intro k
  induction k with
  | zero =>
    intro n cur hn _ hvalid
    match n, hn with
    | m + 1, _ =>
      simp only [correctionLoop]
      have h1 : correct cur (validate_extracted_data v cur).errors
          = correctionChain v correct cur 1 := rfl
      rw [h1, hvalid]
      simp
  | succ j ih =>
    intro n cur hn hinv hvalid
    match n, hn with
    | m + 1, hn =>
      have hnext : (validate_extracted_data v
          (correct cur (validate_extracted_data v cur).errors)).is_valid = false := by
        have := hinv 1 (by omega)
        simpa [correctionChain] using this
      simp only [correctionLoop, hnext, Bool.false_eq_true, if_false]
      have hm : j < m := by omega
      have hshift := correctionChain_shift v correct cur
      rw [ih m (correct cur (validate_extracted_data v cur).errors) hm
        (by intro i hi; rw [hshift i]; exact hinv (i + 1) (by omega))
        (by rw [hshift (j + 1)]; exact hvalid)]
      simp only [hshift]

/-! ### Claim C4 -/

/-- C4: `_validate_and_correct` never raises (the embedding is total); when
the initial validation succeeds it returns immediately with zero oracle
calls; when the Correction Oracle never produces facts that validate, it
performs exactly `max_attempts` correction attempts (one oracle call plus
one re-validation each) and returns the last-corrected facts together with
the final result with `is_valid = false`; and when the `(k+1)`-st corrected
facts are the first to validate (within the budget), it stops early after
exactly `k+1` oracle calls and returns those facts with a valid result.
The third component of the returned triple counts the oracle calls. -/
theorem c4_validate_and_correct (v : Validator)
    (correct : ExtractedData → List String → ExtractedData)
    (max_attempts : Nat) (extracted : ExtractedData) :
    ((validate_extracted_data v extracted).is_valid = true →
      validate_and_correct v correct max_attempts extracted
        = (extracted, validate_extracted_data v extracted, 0)) ∧
    ((∀ f e, (validate_extracted_data v (correct f e)).is_valid = false) →
      (validate_extracted_data v extracted).is_valid = false →
      validate_and_correct v correct max_attempts extracted
          = (correctionChain v correct extracted max_attempts,
             validate_extracted_data v (correctionChain v correct extracted max_attempts),
             max_attempts) ∧
        (validate_extracted_data v
          (correctionChain v correct extracted max_attempts)).is_valid = false) ∧
    (∀ k, k < max_attempts →
      (validate_extracted_data v extracted).is_valid = false →
      (∀ i, i ≤ k →
        (validate_extracted_data v (correctionChain v correct extracted i)).is_valid = false) →
      (validate_extracted_data v (correctionChain v correct extracted (k + 1))).is_valid = true →
      validate_and_correct v correct max_attempts extracted
        = (correctionChain v correct extracted (k + 1),
           validate_extracted_data v (correctionChain v correct extracted (k + 1)),
           k + 1)) := by
  refine ⟨?_, ?_, ?_⟩
  · intro h
    simp [validate_and_correct, h]
  · intro hnv hinit
    constructor
    · simp only [validate_and_correct, hinit, Bool.false_eq_true, if_false]
      exact correctionLoop_never v correct hnv max_attempts extracted
    · cases max_attempts with
      | zero => exact hinit
      | succ m => exact hnv _ _
  · intro k hk hinit hinv hvalid
    simp only [validate_and_correct, hinit, Bool.false_eq_true, if_false]
    exact correctionLoop_stop v correct k max_attempts extracted hk hinv hvalid

/-- C4 witness: with the default budget of 2 attempts, an oracle stub that
always returns the same invalid facts (death 1940 before birth 1950) makes
the loop perform exactly 2 oracle calls and return the facts with an
invalid result. -/
theorem c4_witness :
    validate_and_correct {} (fun _ _ => c4BadFacts)
        settings_max_correction_attempts c4BadFacts
      = (c4BadFacts, validate_extracted_data {} c4BadFacts,
         settings_max_correction_attempts) := by
  have h := ((c4_validate_and_correct {} (fun _ _ => c4BadFacts)
    settings_max_correction_attempts c4BadFacts).2.1
    (fun _ _ => by with_unfolding_all decide)
    (by with_unfolding_all decide)).1
  rw [h]
  rfl

/-! ### Membership lemmas for `validate_extracted_data` -/

theorem ved_mem_errors_lifespan (v : Validator) (data : ExtractedData) (e : String)
    (he : e ∈ (lifespanChecks v (subjectBirthYear data) (subjectDeathYear data)).1) :
    e ∈ (validate_extracted_data v data).errors := by
  simp only [validate_extracted_data, List.mem_append]
  exact Or.inl (Or.inl (Or.inl he))

theorem ved_mem_errors_parent (v : Validator) (data : ExtractedData)
    (p : PersonReference) (hp : p ∈ data.parents) (e : String)
    (he : e ∈ (validateParentChild v p.name p.approximate_birth_year
      (subjectBirthYear data) none).1) :
    e ∈ (validate_extracted_data v data).errors := by
  simp only [validate_extracted_data, List.mem_append, List.mem_flatMap, List.mem_map]
  exact Or.inl (Or.inl (Or.inr ⟨_, ⟨p, hp, rfl⟩, he⟩))

theorem ved_mem_errors_child (v : Validator) (data : ExtractedData)
    (c : PersonReference) (hc : c ∈ data.children) (e : String)
    (he : e ∈ (validateParentChild v (data.given_name ++ " " ++ data.surname)
      (subjectBirthYear data) c.approximate_birth_year (subjectDeathYear data)).1) :
    e ∈ (validate_extracted_data v data).errors := by
  simp only [validate_extracted_data, List.mem_append, List.mem_flatMap, List.mem_map]
  exact Or.inl (Or.inr ⟨_, ⟨c, hc, rfl⟩, he⟩)

theorem ved_mem_warnings_parent (v : Validator) (data : ExtractedData)
    (p : PersonReference) (hp : p ∈ data.parents) (w : String)
    (hw : w ∈ (validateParentChild v p.name p.approximate_birth_year
      (subjectBirthYear data) none).2) :
    w ∈ (validate_extracted_data v data).warnings := by
  simp only [validate_extracted_data, List.mem_append, List.mem_flatMap, List.mem_map]
  exact Or.inl (Or.inl (Or.inr ⟨_, ⟨p, hp, rfl⟩, hw⟩))

theorem ved_invalid_of_mem (v : Validator) (data : ExtractedData) (e : String)
    (he : e ∈ (validate_extracted_data v data).errors) :
    (validate_extracted_data v data).is_valid = false := by
  have hne := List.ne_nil_of_mem he
  have : (validate_extracted_data v data).is_valid
      = (validate_extracted_data v data).errors.isEmpty := rfl
  rw [this]
  cases h : (validate_extracted_data v data).errors with
  | nil => exact absurd h hne
  | cons x xs => rfl

theorem validateParentChild_too_young (v : Validator) (n : String)
    (pby cby : Int) (d : Option Int) (h : cby - pby < v.min_parent_age) :
    ("Parent " ++ n ++ " too young at child\x27s birth: age " ++ toString (cby - pby) ++
      " (min: " ++ toString v.min_parent_age ++ ")")
      ∈ (validateParentChild v n (some pby) (some cby) d).1 := by
  cases d with
  | none => simp [validateParentChild, parentAgeEW, h]
  | some pdy =>
    simp only [validateParentChild, parentAgeEW, h, if_pos]
    split <;> simp

theorem validateParentChild_old_only (v : Validator) (n : String) (pby cby : Int)
    (h1 : ¬ cby - pby < v.min_parent_age) (h2 : cby - pby > v.max_parent_age + 20) :
    validateParentChild v n (some pby) (some cby) none
      = ([], ["Parent " ++ n ++ " very old at child\x27s birth: age " ++
          toString (cby - pby)]) := by
  simp [validateParentChild, parentAgeEW, h1, h2]

theorem validateParentChild_died (v : Validator) (n : String) (pby cby pdy : Int)
    (h : cby > pdy + 1) :
    ("Child born in " ++ toString cby ++ ", but parent " ++ n ++ " died in " ++
      toString pdy) ∈ (validateParentChild v n (some pby) (some cby) (some pdy)).1 := by
  simp [validateParentChild, h]

theorem mentions_too_young (n a m : String) :
    mentions "too young" ("Parent " ++ n ++ " too young at child\x27s birth: age " ++
      a ++ " (min: " ++ m ++ ")") = true := by
  unfold mentions
  simp only [toList_append, List.append_assoc]
  refine hasSubL_mono_r _ _ _ (hasSubL_mono_r _ _ _ (hasSubL_mono_l _ _ _ ?_))
  decide

theorem mentions_before_birth (d b : String) :
    mentions "before birth" ("Death year (" ++ d ++ ") before birth year (" ++
      b ++ ")") = true := by
  unfold mentions
  simp only [toList_append, List.append_assoc]
  refine hasSubL_mono_r _ _ _ (hasSubL_mono_r _ _ _ (hasSubL_mono_l _ _ _ ?_))
  decide

theorem mentions_old (n a : String) :
    mentions "old" ("Parent " ++ n ++ " very old at child\x27s birth: age " ++ a)
      = true := by
  unfold mentions
  simp only [toList_append, List.append_assoc]
  refine hasSubL_mono_r _ _ _ (hasSubL_mono_r _ _ _ (hasSubL_mono_l _ _ _ ?_))
  decide

theorem mentions_died (c n p : String) :
    mentions "died in" ("Child born in " ++ c ++ ", but parent " ++ n ++
      " died in " ++ p) = true := by
  unfold mentions
  simp only [toList_append, List.append_assoc]
  refine hasSubL_mono_r _ _ _ (hasSubL_mono_r _ _ _ (hasSubL_mono_r _ _ _
    (hasSubL_mono_r _ _ _ (hasSubL_mono_l _ _ _ ?_))))
  decide

/-! ### Claim C9 -/

/-- C9: `validate_extracted_data` classifies exactly as specified when the
relevant years are known (a year is "known" when present and nonzero,
matching the truthiness / `is None` tests of the source): a death year
before the birth year yields an error mentioning "before birth"; a parent
younger than the configured minimum at the subject\x27s birth yields an
error mentioning "too young"; a parent older than `max_parent_age + 20`
yields only a warning mentioning "old" (that parent contributes no error),
and with the default configuration a parent aged 100 leaves the result
valid; the same age check runs in the opposite direction for child
references; and a child born more than one year after the subject\x27s
death yields an error. -/
theorem c9_validation_classification (v : Validator) (data : ExtractedData) :
    (∀ b d : Int, subjectBirthYear data = some b → b ≠ 0 →
      subjectDeathYear data = some d → d ≠ 0 → d < b →
      (validate_extracted_data v data).is_valid = false ∧
      ∃ e ∈ (validate_extracted_data v data).errors, mentions "before birth" e = true) ∧
    (∀ p ∈ data.parents, ∀ pby cby : Int, p.approximate_birth_year = some pby →
      subjectBirthYear data = some cby → cby - pby < v.min_parent_age →
      (validate_extracted_data v data).is_valid = false ∧
      ∃ e ∈ (validate_extracted_data v data).errors, mentions "too young" e = true) ∧
    (∀ p ∈ data.parents, ∀ pby cby : Int, p.approximate_birth_year = some pby →
      subjectBirthYear data = some cby → ¬ cby - pby < v.min_parent_age →
      cby - pby > v.max_parent_age + 20 →
      (∃ w ∈ (validate_extracted_data v data).warnings, mentions "old" w = true) ∧
      (validateParentChild v p.name p.approximate_birth_year
        (subjectBirthYear data) none).1 = []) ∧
    (∀ c ∈ data.children, ∀ cby pby : Int, c.approximate_birth_year = some cby →
      subjectBirthYear data = some pby → cby - pby < v.min_parent_age →
      (validate_extracted_data v data).is_valid = false ∧
      ∃ e ∈ (validate_extracted_data v data).errors, mentions "too young" e = true) ∧
    (∀ c ∈ data.children, ∀ cby pby sdy : Int, c.approximate_birth_year = some cby →
      subjectBirthYear data = some pby → subjectDeathYear data = some sdy →
      cby > sdy + 1 →
      (validate_extracted_data v data).is_valid = false ∧
      ∃ e ∈ (validate_extracted_data v data).errors, mentions "died in" e = true) ∧
    ((validate_extracted_data {} dataOldParent).is_valid = true ∧
      ∃ w ∈ (validate_extracted_data {} dataOldParent).warnings,
        mentions "old" w = true) := by
  refine ⟨?_, ?_, ?_, ?_, ?_, ?_⟩
  · intro b d hsb hb0 hsd hd0 hdb
    have hls : (lifespanChecks v (subjectBirthYear data) (subjectDeathYear data)).1
        = ["Death year (" ++ toString d ++ ") before birth year (" ++ toString b ++ ")"] := by
      rw [hsb, hsd]
      simp [lifespanChecks, intTruthy, hb0, hd0, show d - b < 0 by omega]
    have hmem := ved_mem_errors_lifespan v data _ (by rw [hls]; exact List.mem_singleton.mpr rfl)
    exact ⟨ved_invalid_of_mem v data _ hmem, _, hmem, mentions_before_birth _ _⟩
  · intro p hp pby cby hpy hsb hage
    have he := validateParentChild_too_young v p.name pby cby none hage
    rw [← hpy, ← hsb] at he
    have hmem := ved_mem_errors_parent v data p hp _ he
    exact ⟨ved_invalid_of_mem v data _ hmem, _, hmem, mentions_too_young _ _ _⟩
  · intro p hp pby cby hpy hsb h1 h2
    have hvc := validateParentChild_old_only v p.name pby cby h1 h2
    constructor
    · have hw : ("Parent " ++ p.name ++ " very old at child\x27s birth: age " ++
          toString (cby - pby))
          ∈ (validateParentChild v p.name p.approximate_birth_year
            (subjectBirthYear data) none).2 := by
        rw [hpy, hsb, hvc]
        exact List.mem_singleton.mpr rfl
      exact ⟨_, ved_mem_warnings_parent v data p hp _ hw, mentions_old _ _⟩
    · rw [hpy, hsb, hvc]
  · intro c hc cby pby hcy hsb hage
    have he := validateParentChild_too_young v (data.given_name ++ " " ++ data.surname)
      pby cby (subjectDeathYear data) hage
    rw [← hcy, ← hsb] at he
    have hmem := ved_mem_errors_child v data c hc _ he
    exact ⟨ved_invalid_of_mem v data _ hmem, _, hmem, mentions_too_young _ _ _⟩
  · intro c hc cby pby sdy hcy hsb hsd hpost
    have he := validateParentChild_died v (data.given_name ++ " " ++ data.surname)
      pby cby sdy hpost
    rw [← hcy, ← hsb, ← hsd] at he
    have hmem := ved_mem_errors_child v data c hc _ he
    exact ⟨ved_invalid_of_mem v data _ hmem, _, hmem, mentions_died _ _ _⟩
  · constructor
    · with_unfolding_all decide
    · refine ⟨"Parent P Q very old at child\x27s birth: age 100", ?_, ?_⟩ <;>
        with_unfolding_all decide

set_option maxRecDepth 4000 in
/-- C9 witness: the specification\x27s concrete cases — birth 1950 / death
1940 is invalid with an error mentioning "before birth", and a parent born
1945 for a child born 1950 is invalid with an error mentioning "too young"
(default configuration). -/
theorem c9_witness :
    ((validate_extracted_data {} dataDeathBeforeBirth).is_valid = false ∧
      ∃ e ∈ (validate_extracted_data {} dataDeathBeforeBirth).errors,
        mentions "before birth" e = true) ∧
    ((validate_extracted_data {} dataYoungParent).is_valid = false ∧
      ∃ e ∈ (validate_extracted_data {} dataYoungParent).errors,
        mentions "too young" e = true) := by
  constructor
  · exact (c9_validation_classification {} dataDeathBeforeBirth).1 1950 1940
      rfl (by decide) rfl (by decide) (by decide)
  · exact (c9_validation_classification {} dataYoungParent).2.1
      refParent1945 (by with_unfolding_all decide) 1945 1950 rfl rfl (by decide)

/-! ### Resolution lemmas -/

theorem vpr_invalid_blank (currentYear : Int) (ref : PersonReference)
    (h : stripBoth ref.name.toList = []) :
    (validate_person_reference currentYear ref).is_valid = false := by
  have hc : ref.name.length = 0 ∨ (stripBoth ref.name.toList).length = 0 :=
    Or.inr (by rw [h]; rfl)
  simp only [validate_person_reference]
  rw [if_pos hc]
  rfl

theorem vpr_invalid_future (currentYear : Int) (ref : PersonReference)
    (ht : intTruthy ref.approximate_birth_year = true)
    (hf : currentYear < ref.approximate_birth_year.getD 0) :
    (validate_person_reference currentYear ref).is_valid = false := by
  unfold validate_person_reference
  simp only [ht, if_pos, List.isEmpty_eq_false]
  simp [show ref.approximate_birth_year.getD 0 > currentYear from hf]

theorem resolve_drops_invalid (oracle : List Nat → DedupResult) (currentYear : Int)
    (st : Store) (ref : PersonReference) (generation : Int)
    (hv : (validate_person_reference currentYear ref).is_valid = false) :
    resolve oracle currentYear st ref generation = Except.ok (none, st) := by
  unfold resolve
  simp [hv]

theorem vpr_prefloor_only_warns (currentYear : Int) (ref : PersonReference)
    (hn : stripBoth ref.name.toList ≠ [])
    (ht : intTruthy ref.approximate_birth_year = true)
    (hnf : ref.approximate_birth_year.getD 0 ≤ currentYear)
    (hold : ref.approximate_birth_year.getD 0 < 1500) :
    (validate_person_reference currentYear ref).is_valid = true ∧
    ∃ w ∈ (validate_person_reference currentYear ref).warnings,
      mentions "Very old" w = true := by
  have h2 : ¬ stripBoth ref.name.data = [] := hn
  have h1 : ¬ ref.name.length = 0 := fun h0 =>
    h2 (by rw [List.eq_nil_of_length_eq_zero h0]; rfl)
  have hlen : ¬ (ref.name.length = 0 ∨ (stripBoth ref.name.toList).length = 0) := by
    rintro (h0 | h0)
    · exact h1 h0
    · exact hn (List.length_eq_zero.mp h0)
  constructor
  · unfold validate_person_reference
    simp [h1, h2, ht, show ¬ ref.approximate_birth_year.getD 0 > currentYear by omega]
  · refine ⟨"Very old birth year: " ++ toString (ref.approximate_birth_year.getD 0), ?_, ?_⟩
    · unfold validate_person_reference
      simp [hlen, ht, hold]
    · unfold mentions
      simp only [toList_append, List.append_assoc]
      exact hasSubL_mono_l _ _ _ (by decide)

theorem resolve_no_candidates (oracle : List Nat → DedupResult) (currentYear : Int)
    (st : Store) (ref : PersonReference) (generation : Int)
    (hval : (validate_person_reference currentYear ref).is_valid = true)
    (hempty : resolveGood st ref = []) :
    resolve oracle currentYear st ref generation
      = createPendingPerson st ref (parse_name ref.name).given_name
          (parse_name ref.name).surname (parse_name ref.name).maiden_name generation := by
  unfold resolve
  simp [hval, hempty]

theorem resolve_no_match (oracle : List Nat → DedupResult) (currentYear : Int)
    (st : Store) (ref : PersonReference) (generation : Int)
    (hval : (validate_person_reference currentYear ref).is_valid = true)
    (hne : (resolveGood st ref).isEmpty = false)
    (horacle : (oracle (resolvePresentedIds st ref)).is_duplicate = false ∨
      optStrTruthy (oracle (resolvePresentedIds st ref)).matched_person_id = false) :
    resolve oracle currentYear st ref generation
      = createPendingPerson st ref (parse_name ref.name).given_name
          (parse_name ref.name).surname (parse_name ref.name).maiden_name generation := by
  unfold resolve
  rcases horacle with h | h <;> simp [hval, hne, h]

theorem resolve_malformed_id (oracle : List Nat → DedupResult) (currentYear : Int)
    (st : Store) (ref : PersonReference) (generation : Int)
    (hval : (validate_person_reference currentYear ref).is_valid = true)
    (hne : (resolveGood st ref).isEmpty = false)
    (hdup : (oracle (resolvePresentedIds st ref)).is_duplicate = true)
    (htr : optStrTruthy (oracle (resolvePresentedIds st ref)).matched_person_id = true)
    (hparse : parsePersonId
      ((oracle (resolvePresentedIds st ref)).matched_person_id.getD "") = none) :
    resolve oracle currentYear st ref generation
      = createPendingPerson st ref (parse_name ref.name).given_name
          (parse_name ref.name).surname (parse_name ref.name).maiden_name generation := by
  unfold resolve
  simp [hval, hne, hdup, htr, hparse]

theorem resolve_matched (oracle : List Nat → DedupResult) (currentYear : Int)
    (st : Store) (ref : PersonReference) (generation : Int) (mid : Nat)
    (hval : (validate_person_reference currentYear ref).is_valid = true)
    (hne : (resolveGood st ref).isEmpty = false)
    (hdup : (oracle (resolvePresentedIds st ref)).is_duplicate = true)
    (htr : optStrTruthy (oracle (resolvePresentedIds st ref)).matched_person_id = true)
    (hparse : parsePersonId
      ((oracle (resolvePresentedIds st ref)).matched_person_id.getD "") = some mid) :
    resolve oracle currentYear st ref generation = Except.ok (some mid, st) := by
  unfold resolve
  simp [hval, hne, hdup, htr, hparse]

theorem createPendingPerson_ok (st : Store) (ref : PersonReference)
    (g s : String) (m : Option String) (generation : Int) (bd : Option Int)
    (hbd : mkBirthDate ref.approximate_birth_year = Except.ok bd) :
    createPendingPerson st ref g s m generation
      = Except.ok (some st.nextId,
          { st with
            persons := st.persons ++
              [{ id := st.nextId, status := PersonStatus.pending, given_name := g,
                 surname := s, maiden_name := m, gender := ref.gender,
                 birth_year := bd, generation := generation }],
            nextId := st.nextId + 1 }) := by
  unfold createPendingPerson
  rw [hbd]
  rfl

/-- C3: the reference-rejection claim, amended.  Empty or whitespace-only
names and future birth years do make validation fail, and resolution then
drops the reference, returning no person and leaving the store unchanged.
A birth year before the configured floor (1500), however, only produces a
"Very old birth year" warning: the reference stays valid, so resolution
proceeds (and can create a Person record) instead of dropping it. -/
theorem c3_reference_rejection (oracle : List Nat → DedupResult) (currentYear : Int)
    (st : Store) (ref : PersonReference) (generation : Int) :
    (stripBoth ref.name.toList = [] →
      resolve oracle currentYear st ref generation = Except.ok (none, st)) ∧
    (intTruthy ref.approximate_birth_year = true →
      currentYear < ref.approximate_birth_year.getD 0 →
      resolve oracle currentYear st ref generation = Except.ok (none, st)) ∧
    (stripBoth ref.name.toList ≠ [] →
      intTruthy ref.approximate_birth_year = true →
      ref.approximate_birth_year.getD 0 ≤ currentYear →
      ref.approximate_birth_year.getD 0 < 1500 →
      (validate_person_reference currentYear ref).is_valid = true ∧
      ∃ w ∈ (validate_person_reference currentYear ref).warnings,
        mentions "Very old" w = true) := by
  refine ⟨fun h => ?_, fun ht hf => ?_, fun hn ht hnf hold => ?_⟩
  · exact resolve_drops_invalid _ _ _ _ _ (vpr_invalid_blank _ _ h)
  · exact resolve_drops_invalid _ _ _ _ _ (vpr_invalid_future _ _ ht hf)
  · exact vpr_prefloor_only_warns _ _ hn ht hnf hold

theorem c3_witness :
    resolve falseOracle 2026 {} refBlankName 0 = Except.ok (none, {}) ∧
    resolve falseOracle 2026 {} refFuture 0 = Except.ok (none, {}) ∧
    ((validate_person_reference 2026 refJohn1400).is_valid = true ∧
      ∃ w ∈ (validate_person_reference 2026 refJohn1400).warnings,
        mentions "Very old" w = true) :=
  ⟨(c3_reference_rejection falseOracle 2026 {} refBlankName 0).1 (by decide),
   (c3_reference_rejection falseOracle 2026 {} refFuture 0).2.1 (by decide) (by decide),
   (c3_reference_rejection falseOracle 2026 {} refJohn1400 0).2.2
     (by decide) (by decide) (by decide) (by decide)⟩

set_option maxRecDepth 10000 in
/-- C3 counterexample: the reference "John Smith", birth year 1400, is
before the configured floor (1500), yet resolution does not drop it: the
reference validates as valid (warning only), and on an empty store resolve
creates a Pending person record and returns its id. -/
theorem c3_counterexample :
    (refJohn1400.approximate_birth_year.getD 0 < 1500) ∧
    (validate_person_reference 2026 refJohn1400).is_valid = true ∧
    resolve falseOracle 2026 {} refJohn1400 0 = Except.ok (some 0, c3Store1) := by
  refine ⟨by decide, by decide, ?_⟩
  with_unfolding_all decide

set_option maxRecDepth 10000 in
/-- C7: no-candidate / no-match creation, amended.  When a valid reference
finds no good candidate, or the Dedup Oracle reports no match, resolution
creates exactly one new Pending person carrying the parsed given, surname
and maiden-name fields, the reference's gender and birth year, and the
requested generation, and returns its id — provided the birth year yields a
representable date (`date(y,1,1)` succeeds); a valid reference with a
negative birth year instead raises (see the counterexample).  The concrete
scenario holds: "William Smith", born 1920, resolved as a parent of a
generation-3 subject with no candidates, becomes a Pending person
given="William", surname="Smith" at generation 2, linked and enqueued at
priority 1. -/
theorem c7_pending_creation (oracle : List Nat → DedupResult) (currentYear : Int)
    (st : Store) (ref : PersonReference) (generation : Int) (bd : Option Int)
    (hval : (validate_person_reference currentYear ref).is_valid = true)
    (hbd : mkBirthDate ref.approximate_birth_year = Except.ok bd)
    (hpath : resolveGood st ref = [] ∨
      (oracle (resolvePresentedIds st ref)).is_duplicate = false ∨
      optStrTruthy (oracle (resolvePresentedIds st ref)).matched_person_id = false) :
    resolve oracle currentYear st ref generation
      = Except.ok (some st.nextId, createdStore st ref generation bd) ∧
    process_parent_ref falseOracle 2026 stW subjectS refWilliam1920
      = Except.ok stWFinal := by
  constructor
  · have hcreate : createPendingPerson st ref (parse_name ref.name).given_name
        (parse_name ref.name).surname (parse_name ref.name).maiden_name generation
        = Except.ok (some st.nextId, createdStore st ref generation bd) := by
      rw [createPendingPerson_ok st ref _ _ _ generation bd hbd]
      rfl
    by_cases hg : resolveGood st ref = []
    · rw [resolve_no_candidates oracle currentYear st ref generation hval hg]
      exact hcreate
    · have hne : (resolveGood st ref).isEmpty = false := by
        cases hq : resolveGood st ref with
        | nil => exact absurd hq hg
        | cons a l => rfl
      rcases hpath with h | h
      · exact absurd h hg
      · rw [resolve_no_match oracle currentYear st ref generation hval hne h]
        exact hcreate
  · with_unfolding_all decide

set_option maxRecDepth 10000 in
theorem c7_witness :
    (validate_person_reference 2026 refWilliam1920).is_valid = true ∧
    mkBirthDate refWilliam1920.approximate_birth_year = Except.ok (some 1920) ∧
    resolveGood stW refWilliam1920 = [] ∧
    resolve falseOracle 2026 stW refWilliam1920 2
      = Except.ok (some 51, createdStore stW refWilliam1920 2 (some 1920)) ∧
    process_parent_ref falseOracle 2026 stW subjectS refWilliam1920
      = Except.ok stWFinal :=
  ⟨by decide, by decide, by with_unfolding_all decide,
   (c7_pending_creation falseOracle 2026 stW refWilliam1920 2 (some 1920)
     (by decide) (by decide) (Or.inl (by with_unfolding_all decide))).1,
   (c7_pending_creation falseOracle 2026 stW refWilliam1920 2 (some 1920)
     (by decide) (by decide) (Or.inl (by with_unfolding_all decide))).2⟩

set_option maxRecDepth 10000 in
/-- C7 counterexample: the reference "John Smith" with birth year −1 passes
validation (a negative year is truthy, not in the future, and the floor
check only warns), and no candidate survives on the empty store, yet
resolution raises — `date(-1, 1, 1)` is a `ValueError` — instead of
creating a Pending person. -/
theorem c7_counterexample :
    (validate_person_reference 2026 refJohnNeg1).is_valid = true ∧
    resolveGood {} refJohnNeg1 = [] ∧
    resolve falseOracle 2026 {} refJohnNeg1 0
      = Except.error ("year -1 is out of range") := by
  refine ⟨by decide, ?_, ?_⟩ <;> with_unfolding_all decide

/-- C2: Dedup-Oracle identifier handling, amended.  When the oracle reports
a duplicate with an identifier, a syntactically valid id is returned as the
resolution result (whether or not it denotes a presented candidate), and a
malformed identifier is treated exactly as a "no match" reply — resolution
proceeds to the new-Pending-person path.  The claim's "does not raise"
does not hold on that path: creating the fallback person evaluates
`date(y, 1, 1)` on the reference's birth year and raises for years outside
[1, 9999] (see the counterexample). -/
theorem c2_oracle_id_handling (oracle : List Nat → DedupResult) (currentYear : Int)
    (st : Store) (ref : PersonReference) (generation : Int)
    (hval : (validate_person_reference currentYear ref).is_valid = true)
    (hne : (resolveGood st ref).isEmpty = false)
    (hdup : (oracle (resolvePresentedIds st ref)).is_duplicate = true)
    (htr : optStrTruthy (oracle (resolvePresentedIds st ref)).matched_person_id = true) :
    (∀ mid, parsePersonId
        ((oracle (resolvePresentedIds st ref)).matched_person_id.getD "") = some mid →
      resolve oracle currentYear st ref generation = Except.ok (some mid, st)) ∧
    (parsePersonId
        ((oracle (resolvePresentedIds st ref)).matched_person_id.getD "") = none →
      resolve oracle currentYear st ref generation
        = resolve falseOracle currentYear st ref generation) := by
  constructor
  · intro mid hparse
    exact resolve_matched oracle currentYear st ref generation mid hval hne hdup htr hparse
  · intro hparse
    rw [resolve_malformed_id oracle currentYear st ref generation hval hne hdup htr hparse,
      resolve_no_match falseOracle currentYear st ref generation hval hne (Or.inl rfl)]

set_option maxRecDepth 10000 in
theorem c2_witness :
    resolve (dupOracle "7") 2026 storeJohnY1 refJohnNeg1 0
      = Except.ok (some 7, storeJohnY1) ∧
    resolve (dupOracle "xx") 2026 storeJohnY1 refJohnNeg1 0
      = resolve falseOracle 2026 storeJohnY1 refJohnNeg1 0 :=
  ⟨(c2_oracle_id_handling (dupOracle "7") 2026 storeJohnY1 refJohnNeg1 0
      (by decide) (by with_unfolding_all decide) (by decide) (by decide)).1
      7 (by decide),
   (c2_oracle_id_handling (dupOracle "xx") 2026 storeJohnY1 refJohnNeg1 0
      (by decide) (by with_unfolding_all decide) (by decide) (by decide)).2
      (by decide)⟩

set_option maxRecDepth 10000 in
/-- C2 counterexample: a valid reference ("John Smith", birth year −1, a
warning-only year) with a surviving candidate (a stored John Smith born in
year 1) draws a duplicate reply carrying the malformed id "xx"; the
malformed id falls through to the creation path, which raises on
`date(-1, 1, 1)` — resolution does raise rather than merely treating the
reply as "no match". -/
theorem c2_counterexample :
    (validate_person_reference 2026 refJohnNeg1).is_valid = true ∧
    (resolveGood storeJohnY1 refJohnNeg1).isEmpty = false ∧
    (dupOracle "xx" (resolvePresentedIds storeJohnY1 refJohnNeg1)).is_duplicate = true ∧
    parsePersonId "xx" = none ∧
    resolve (dupOracle "xx") 2026 storeJohnY1 refJohnNeg1 0
      = Except.error ("year -1 is out of range") := by
  refine ⟨by decide, ?_, by decide, by decide, ?_⟩ <;> with_unfolding_all decide

/-! ### Queue lemmas -/

theorem betterEntry_iff (a b : QueueEntry) :
    betterEntry a b = true ↔
      (b.priority < a.priority ∨
        (a.priority = b.priority ∧ a.added_at < b.added_at)) := by
  simp [betterEntry]

theorem betterEntry_irrefl (a : QueueEntry) : betterEntry a a = false := by
  simp [betterEntry]

theorem betterEntry_asymm {a b : QueueEntry} (h : betterEntry a b = true) :
    betterEntry b a = false := by
  rw [betterEntry_iff] at h
  rw [Bool.eq_false_iff]
  intro hc
  rw [betterEntry_iff] at hc
  omega

theorem betterEntry_resolve {y b e : QueueEntry}
    (h1 : betterEntry y e = true) (h2 : betterEntry b e = false)
    (h3 : betterEntry y b = false) : False := by
  rw [betterEntry_iff] at h1
  rw [Bool.eq_false_iff, ne_eq, betterEntry_iff] at h2 h3
  push_neg at h2 h3
  omega

theorem betterEntry_total {a b : QueueEntry}
    (h1 : betterEntry a b = false) (h2 : betterEntry b a = false) :
    a.priority = b.priority ∧ a.added_at = b.added_at := by
  rw [Bool.eq_false_iff, ne_eq, betterEntry_iff] at h1 h2
  push_neg at h1 h2
  omega

theorem dequeueChoice_go (q : List QueueEntry) :
    ∀ b : QueueEntry, ∃ e,
      q.foldl (fun best x =>
        match best with
        | none => some x
        | some bb => if betterEntry x bb then some x else some bb) (some b) = some e ∧
      (e = b ∨ e ∈ q) ∧ betterEntry b e = false ∧
      ∀ x ∈ q, betterEntry x e = false := by
  induction q with
  | nil =>
    intro b
    exact ⟨b, rfl, Or.inl rfl, betterEntry_irrefl b, by intro x hx; cases hx⟩
  | cons y ys ih =>
    intro b
    rw [List.foldl_cons]
    by_cases hy : betterEntry y b = true
    · obtain ⟨e, he, hmem, hyb, hall⟩ := ih y
      refine ⟨e, by simp [hy]; exact he, ?_, ?_, ?_⟩
      · rcases hmem with h | h
        · exact Or.inr (by simp [h])
        · exact Or.inr (by simp [h])
      · cases hbe : betterEntry b e with
        | false => rfl
        | true => exact absurd (betterEntry_asymm hy) (by
            intro hcon
            exact betterEntry_resolve hbe hyb hcon)
      · intro x hx
        rcases List.mem_cons.mp hx with h | h
        · rw [h]; exact hyb
        · exact hall x h
    · have hy2 : betterEntry y b = false := by
        cases h : betterEntry y b
        · rfl
        · exact absurd h hy
      obtain ⟨e, he, hmem, hbb, hall⟩ := ih b
      refine ⟨e, by simp [hy2]; exact he, ?_, hbb, ?_⟩
      · rcases hmem with h | h
        · exact Or.inl h
        · exact Or.inr (by simp [h])
      · intro x hx
        rcases List.mem_cons.mp hx with h | h
        · subst h
          cases hye : betterEntry x e with
          | false => rfl
          | true => exact absurd hye (by
              intro hcon
              exact betterEntry_resolve hcon hbb hy2)
        · exact hall x h

theorem dequeueChoice_spec (q : List QueueEntry) (e : QueueEntry)
    (h : dequeueChoice q = some e) :
    e ∈ q ∧ ∀ x ∈ q, betterEntry x e = false := by
  cases q with
  | nil => cases h
  | cons y ys =>
    obtain ⟨f, hf, hmem, hyf, hall⟩ := dequeueChoice_go ys y
    have he : f = e := by
      have : dequeueChoice (y :: ys) = some f := by
        unfold dequeueChoice
        rw [List.foldl_cons]
        exact hf
      rw [h] at this
      exact (Option.some.inj this).symm
    subst he
    refine ⟨?_, ?_⟩
    · rcases hmem with hh | hh
      · simp [hh]
      · simp [hh]
    · intro x hx
      rcases List.mem_cons.mp hx with hh | hh
      · rw [hh]; exact hyf
      · exact hall x hh

theorem dequeueChoice_cons (y : QueueEntry) (ys : List QueueEntry) :
    ∃ e, dequeueChoice (y :: ys) = some e := by
  obtain ⟨f, hf, _, _, _⟩ := dequeueChoice_go ys y
  refine ⟨f, ?_⟩
  unfold dequeueChoice
  rw [List.foldl_cons]
  exact hf

theorem nodup_map_inj {α β : Type} [DecidableEq α] {f : α → β} {l : List α}
    (d : (l.map f).Nodup) {x y : α} (hx : x ∈ l) (hy : y ∈ l)
    (hf : f x = f y) : x = y :=
  List.inj_on_of_nodup_map d hx hy hf

theorem enqueue_WF (st : Store) (pid : Nat) (p : Int) (h : QueueWF st) :
    QueueWF (enqueue st pid p) := by
  obtain ⟨h1, h2, h3⟩ := h
  unfold enqueue
  cases hf : st.queue.find? (fun e => e.person_id = pid) with
  | some e =>
    by_cases hp : p > e.priority
    · simp only [hp, if_pos]
      refine ⟨?_, ?_, ?_⟩
      · rw [List.map_map]
        have hc : (QueueEntry.person_id ∘ fun x =>
            if x.person_id = pid then { x with priority := p } else x)
              = QueueEntry.person_id := by
          funext x
          by_cases hx : x.person_id = pid <;> simp [hx, Function.comp]
        rw [hc]
        exact h1
      · rw [List.map_map]
        have hc : (QueueEntry.added_at ∘ fun x =>
            if x.person_id = pid then { x with priority := p } else x)
              = QueueEntry.added_at := by
          funext x
          by_cases hx : x.person_id = pid <;> simp [hx, Function.comp]
        rw [hc]
        exact h2
      · intro x hx
        simp only [List.mem_map] at hx
        obtain ⟨y, hy, hyx⟩ := hx
        by_cases hyp : y.person_id = pid
        · rw [← hyx]
          simp only [hyp, if_pos]
          exact h3 y hy
        · rw [← hyx]
          simp only [hyp, if_neg, ite_false]
          exact h3 y hy
    · simp only [hp, if_neg]
      exact ⟨h1, h2, h3⟩
  | none =>
    have hno : ∀ e ∈ st.queue, e.person_id ≠ pid := by
      intro e he
      have := List.find?_eq_none.mp hf e he
      simpa using this
    refine ⟨?_, ?_, ?_⟩
    · rw [List.map_append]
      rw [List.nodup_append]
      refine ⟨h1, List.nodup_singleton _, ?_⟩
      intro x hx hx2
      simp only [List.map_cons, List.map_nil, List.mem_singleton] at hx2
      simp only [List.mem_map] at hx
      obtain ⟨y, hy, hyx⟩ := hx
      exact hno y hy (by rw [hyx, hx2])
    · rw [List.map_append]
      rw [List.nodup_append]
      refine ⟨h2, List.nodup_singleton _, ?_⟩
      intro x hx hx2
      simp only [List.map_cons, List.map_nil, List.mem_singleton] at hx2
      simp only [List.mem_map] at hx
      obtain ⟨y, hy, hyx⟩ := hx
      have := h3 y hy
      rw [hyx, hx2] at this
      exact absurd this (by simp)
    · intro x hx
      rcases List.mem_append.mp hx with hh | hh
      · have := h3 x hh
        simp only
        omega
      · simp only [List.mem_singleton] at hh
        rw [hh]
        simp

theorem dequeue_WF (st : Store) (h : QueueWF st) : QueueWF (dequeue st).2 := by
  obtain ⟨h1, h2, h3⟩ := h
  unfold dequeue
  cases hc : dequeueChoice st.queue with
  | none => exact ⟨h1, h2, h3⟩
  | some e =>
    refine ⟨?_, ?_, ?_⟩
    · exact ((List.filter_sublist _).map _).nodup h1
    · exact ((List.filter_sublist _).map _).nodup h2
    · intro x hx
      exact h3 x (List.mem_of_mem_filter hx)

theorem applyQOp_WF (st : Store) (op : QOp) (h : QueueWF st) :
    QueueWF (applyQOp st op) := by
  cases op with
  | enq pid p => exact enqueue_WF st pid p h
  | deq => exact dequeue_WF st h

theorem queueWF_empty : QueueWF {} :=
  ⟨List.nodup_nil, List.nodup_nil, by intro e he; cases he⟩

theorem applyQOps_go (ops : List QOp) :
    ∀ st : Store, QueueWF st → QueueWF (ops.foldl applyQOp st) := by
  induction ops with
  | nil => intro st h; exact h
  | cons op t ih =>
    intro st h
    rw [List.foldl_cons]
    exact ih (applyQOp st op) (applyQOp_WF st op h)

/-- C8: the queue invariants hold as specified.  Any sequence of enqueue
and dequeue operations from an empty store keeps at most one entry per
person id (and distinct insertion times below the counter); on a
well-formed store, dequeue returns nothing on an empty queue, otherwise
removes and returns an entry strictly better than every other entry under
`ORDER BY priority DESC, added_at ASC`; and re-enqueuing an already-queued
person leaves its single entry at the maximum of the old and new priority,
so a queued priority never decreases. -/
theorem c8_queue_invariants :
    (∀ ops : List QOp, QueueWF (applyQOps ops)) ∧
    (∀ st : Store, QueueWF st →
      (st.queue = [] → dequeue st = (none, st)) ∧
      (∀ pid st1, dequeue st = (some pid, st1) →
        ∃ e ∈ st.queue, e.person_id = pid ∧
          st1.queue = st.queue.filter (fun x => x ≠ e) ∧
          ∀ e2 ∈ st.queue, e2 ≠ e → betterEntry e e2 = true) ∧
      (∀ pid p e0, e0 ∈ st.queue → e0.person_id = pid →
        ∃ e1 ∈ (enqueue st pid p).queue, e1.person_id = pid ∧
          e1.priority = max e0.priority p)) := by
  constructor
  · intro ops
    exact applyQOps_go ops {} queueWF_empty
  · intro st hwf
    obtain ⟨h1, h2, h3⟩ := hwf
    refine ⟨?_, ?_, ?_⟩
    · intro hq
      unfold dequeue
      rw [hq]
      rfl
    · intro pid st1 hdq
      unfold dequeue at hdq
      cases hc : dequeueChoice st.queue with
      | none => rw [hc] at hdq; cases hdq
      | some e =>
        rw [hc] at hdq
        have hfst : some e.person_id = some pid := congrArg Prod.fst hdq
        have hsnd : ({ st with queue := st.queue.filter (fun x => x ≠ e) } : Store)
            = st1 := congrArg Prod.snd hdq
        have hpid := Option.some.inj hfst
        obtain ⟨hmem, hbest⟩ := dequeueChoice_spec st.queue e hc
        refine ⟨e, hmem, hpid, ?_, ?_⟩
        · rw [← hsnd]
        · intro e2 he2 hne
          cases hb : betterEntry e e2 with
          | true => rfl
          | false =>
            have hb2 := hbest e2 he2
            obtain ⟨hpq, haq⟩ := betterEntry_total hb hb2
            exact absurd (nodup_map_inj h2 he2 hmem haq.symm) hne
    · intro pid p e0 he0 hpe0
      cases hf : st.queue.find? (fun e => e.person_id = pid) with
      | none =>
        have := List.find?_eq_none.mp hf e0 he0
        simp [hpe0] at this
      | some e =>
        have hemem : e ∈ st.queue := List.mem_of_find?_eq_some hf
        have hepid : e.person_id = pid := by
          have := List.find?_some hf
          simpa using this
        have hee0 : e = e0 := nodup_map_inj h1 hemem he0 (by rw [hepid, hpe0])
        simp only [enqueue, hf]
        by_cases hp : p > e.priority
        · rw [if_pos hp]
          have hp0 : e0.priority < p := by rw [← hee0]; exact hp
          refine ⟨{ e0 with priority := p }, ?_, hpe0, ?_⟩
          · simp only [List.mem_map]
            exact ⟨e0, he0, by simp [hpe0]⟩
          · show p = max e0.priority p
            exact (max_eq_right (le_of_lt hp0)).symm
        · rw [if_neg hp]
          have hp0 : p ≤ e0.priority := by rw [← hee0]; exact not_lt.mp hp
          exact ⟨e0, he0, hpe0, (max_eq_left hp0).symm⟩

theorem c8_witness :
    QueueWF (applyQOps [QOp.enq 1 5, QOp.enq 2 7, QOp.enq 1 3]) ∧
    dequeue ({} : Store) = (none, ({} : Store)) ∧
    (∃ e ∈ c8St.queue, e.person_id = 2 ∧
      c8StDeq.queue = c8St.queue.filter (fun x => x ≠ e) ∧
      ∀ e2 ∈ c8St.queue, e2 ≠ e → betterEntry e e2 = true) ∧
    (∃ e1 ∈ (enqueue c8St 1 3).queue, e1.person_id = 1 ∧
      e1.priority = max 5 3) :=
  ⟨c8_queue_invariants.1 [QOp.enq 1 5, QOp.enq 2 7, QOp.enq 1 3],
   (c8_queue_invariants.2 {} (by decide)).1 rfl,
   (c8_queue_invariants.2 c8St (by decide)).2.1 2 c8StDeq (by decide),
   (c8_queue_invariants.2 c8St (by decide)).2.2 1 3 qe15 (by decide) rfl⟩

/-! ### Queue preservation through merging -/

theorem foldl_queue_eq {α : Type} (f : Store → α → Store)
    (hf : ∀ s a, (f s a).queue = s.queue ∧ (f s a).queueCounter = s.queueCounter) :
    ∀ (l : List α) (st : Store),
      (l.foldl f st).queue = st.queue ∧
      (l.foldl f st).queueCounter = st.queueCounter := by
  intro l
  induction l with
  | nil => intro st; exact ⟨rfl, rfl⟩
  | cons a t ih =>
    intro st
    rw [List.foldl_cons]
    obtain ⟨hq, hcnt⟩ := ih (f st a)
    obtain ⟨hq2, hcnt2⟩ := hf st a
    exact ⟨by rw [hq, hq2], by rw [hcnt, hcnt2]⟩

theorem reassignParent_queue (st : Store) (o n c : Nat) :
    (reassignParent st o n c).queue = st.queue ∧
    (reassignParent st o n c).queueCounter = st.queueCounter := by
  unfold reassignParent
  by_cases h1 : childExists st n c = true
  · simp [h1, deleteChildLink]
  · by_cases h2 : childExists st o c = true
    · simp [h1, h2, createChildLink, deleteChildLink]
    · simp [h1, h2]

theorem reassignAllParentLinks_queue (st : Store) (o n : Nat) :
    (reassignAllParentLinks st o n).queue = st.queue ∧
    (reassignAllParentLinks st o n).queueCounter = st.queueCounter := by
  unfold reassignAllParentLinks
  exact foldl_queue_eq _ (fun s c => reassignParent_queue s o n c) _ st

theorem reassignAllChildLinks_queue (st : Store) (o n : Nat) :
    (reassignAllChildLinks st o n).queue = st.queue ∧
    (reassignAllChildLinks st o n).queueCounter = st.queueCounter := by
  unfold reassignAllChildLinks
  refine foldl_queue_eq _ ?_ _ st
  intro s q
  by_cases h : childExists s q n = true
  · simp [h, deleteChildLink]
  · simp [h, createChildLink, deleteChildLink]

theorem reassignSpouseLinks_queue (st : Store) (o n : Nat) :
    (reassignSpouseLinks st o n).queue = st.queue ∧
    (reassignSpouseLinks st o n).queueCounter = st.queueCounter := by
  unfold reassignSpouseLinks
  simp only [deleteSpousesFor]
  refine foldl_queue_eq _ ?_ _ st
  intro s sid
  by_cases h1 : sid = n
  · simp [h1]
  · by_cases h2 : spouseExists s n sid = true
    · simp [h1, h2]
    · simp [h1, h2, createSpouseLink]

theorem merge_persons_queue (st : Store) (k d : Nat) :
    (merge_persons st k d).queue = st.queue ∧
    (merge_persons st k d).queueCounter = st.queueCounter := by
  unfold merge_persons
  cases hk : getById st k with
  | none => exact ⟨rfl, rfl⟩
  | some kp =>
    cases hd : getById st d with
    | none => exact ⟨rfl, rfl⟩
    | some dp =>
      simp only [deletePerson, updatePerson]
      obtain ⟨hq1, hc1⟩ := reassignAllParentLinks_queue st d k
      obtain ⟨hq2, hc2⟩ := reassignAllChildLinks_queue (reassignAllParentLinks st d k) d k
      obtain ⟨hq3, hc3⟩ := reassignSpouseLinks_queue
        (reassignAllChildLinks (reassignAllParentLinks st d k) d k) d k
      exact ⟨by rw [hq3, hq2, hq1], by rw [hc3, hc2, hc1]⟩

theorem getById_delete (st : Store) (d : Nat) :
    getById (deletePerson st d) d = none := by
  unfold getById deletePerson
  rw [List.find?_eq_none]
  intro x hx
  have hmem := List.of_mem_filter hx
  simp at hmem ⊢
  exact hmem

/-- C10 (implicit): merging never touches the queue, so the merged-away
record's queue entry goes stale: the queue and counter are unchanged by any
merge; when both records exist the merged-away person record is deleted;
a dequeue that returns an id with no person record makes the scheduler
cycle report not-found (log and return None) with the entry already
removed; and on a well-formed store the consumed entry's person id is no
longer in the queue. -/
theorem c10_merge_stale_entry :
    (∀ st keep merged, (merge_persons st keep merged).queue = st.queue ∧
      (merge_persons st keep merged).queueCounter = st.queueCounter) ∧
    (∀ st keep merged, (getById st keep).isSome = true →
      (getById st merged).isSome = true →
      getById (merge_persons st keep merged) merged = none) ∧
    (∀ st pid st1, dequeue st = (some pid, st1) → getById st1 pid = none →
      process_next st = (NextOutcome.notFound, st1)) ∧
    (∀ st e, QueueWF st → dequeueChoice st.queue = some e →
      e.person_id ∉ (st.queue.filter (fun x => x ≠ e)).map QueueEntry.person_id) := by
  refine ⟨?_, ?_, ?_, ?_⟩
  · intro st keep merged
    exact merge_persons_queue st keep merged
  · intro st keep merged hk hm
    cases hks : getById st keep with
    | none => rw [hks] at hk; cases hk
    | some kp =>
      cases hms : getById st merged with
      | none => rw [hms] at hm; cases hm
      | some mp =>
        simp only [merge_persons, hks, hms]
        exact getById_delete _ merged
  · intro st pid st1 hdq hget
    simp [process_next, hdq, hget]
  · intro st e hwf hc
    intro hxmem
    simp only [List.mem_map] at hxmem
    obtain ⟨x, hx, hxe⟩ := hxmem
    have hx2 := List.mem_filter.mp hx
    have hxq : x ∈ st.queue := hx2.1
    have hxne : x ≠ e := by simpa using hx2.2
    have hmem := (dequeueChoice_spec st.queue e hc).1
    exact hxne (nodup_map_inj hwf.1 hxq hmem hxe)

theorem c10_witness :
    ((merge_persons stM 1 2).queue = stM.queue ∧
      (merge_persons stM 1 2).queueCounter = stM.queueCounter) ∧
    getById (merge_persons stM 1 2) 2 = none ∧
    process_next (merge_persons stM 1 2) = (NextOutcome.notFound, stMAfterDeq) ∧
    qe2.person_id ∉ ((merge_persons stM 1 2).queue.filter
      (fun x => x ≠ qe2)).map QueueEntry.person_id :=
  ⟨c10_merge_stale_entry.1 stM 1 2,
   c10_merge_stale_entry.2.1 stM 1 2 (by decide) (by decide),
   c10_merge_stale_entry.2.2.1 (merge_persons stM 1 2) 2 stMAfterDeq
     (by decide) (by decide),
   c10_merge_stale_entry.2.2.2 (merge_persons stM 1 2) qe2
     (by decide) (by decide)⟩

/-! ### Child-link lemmas for the merge engine -/

theorem childExists_iff (st : Store) (a b : Nat) :
    childExists st a b = true ↔ (a, b) ∈ st.childLinks := by
  simp [childExists]

theorem mem_getChildren (st : Store) (p x : Nat) :
    x ∈ getChildren st p ↔ (p, x) ∈ st.childLinks := by
  unfold getChildren
  simp only [List.mem_map, List.mem_filter, decide_eq_true_eq]
  constructor
  · rintro ⟨l, ⟨hl, hl1⟩, hl2⟩
    cases l
    simp only at hl1 hl2
    rw [← hl1, ← hl2]
    exact hl
  · intro h
    exact ⟨(p, x), ⟨h, rfl⟩, rfl⟩

theorem mem_getParents (st : Store) (c q : Nat) :
    q ∈ getParents st c ↔ (q, c) ∈ st.childLinks := by
  unfold getParents
  simp only [List.mem_map, List.mem_filter, decide_eq_true_eq]
  constructor
  · rintro ⟨l, ⟨hl, hl2⟩, hl1⟩
    cases l
    simp only at hl1 hl2
    rw [← hl1, ← hl2]
    exact hl
  · intro h
    exact ⟨(q, c), ⟨h, rfl⟩, rfl⟩

theorem getParents_eq (st : Store) (c : Nat) :
    getParents st c = (childLinksOf st c).map (fun l => l.1) := rfl

theorem foldl_pres {α β : Type} (g : Store → β) (f : Store → α → Store)
    (hf : ∀ s a, g (f s a) = g s) :
    ∀ (l : List α) (st : Store), g (l.foldl f st) = g st := by
  intro l
  induction l with
  | nil => intro st; rfl
  | cons a t ih =>
    intro st
    rw [List.foldl_cons, ih (f st a), hf st a]

theorem foldl_pres_mem {α β : Type} (g : Store → β) (f : Store → α → Store) :
    ∀ (l : List α) (st : Store), (∀ s a, a ∈ l → g (f s a) = g s) →
      g (l.foldl f st) = g st := by
  intro l
  induction l with
  | nil => intro st _; rfl
  | cons a t ih =>
    intro st h
    rw [List.foldl_cons, ih (f st a) (fun s b hb => h s b (List.mem_cons_of_mem a hb)),
      h st a (List.mem_cons_self a t)]

theorem childLinksOf_delete (st : Store) (a b c : Nat) (h : b ≠ c) :
    childLinksOf (deleteChildLink st a b) c = childLinksOf st c := by
  unfold childLinksOf deleteChildLink
  simp only
  rw [List.filter_filter]
  apply List.filter_congr
  intro x hx
  by_cases hxc : x.2 = c
  · have hne : x ≠ (a, b) := by
      intro he
      rw [he] at hxc
      exact h hxc
    simp [hxc, hne]
  · simp [hxc]

theorem childLinksOf_create (st : Store) (a b c : Nat) (h : b ≠ c) :
    childLinksOf (createChildLink st a b) c = childLinksOf st c := by
  unfold childLinksOf createChildLink
  simp only
  rw [List.filter_append]
  have h2 : List.filter (fun l => decide (l.2 = c)) [(a, b)] = [] := by
    simp [h]
  rw [h2, List.append_nil]

theorem childLinksOf_reassignParent (s : Store) (o n cc c : Nat) (h : cc ≠ c) :
    childLinksOf (reassignParent s o n cc) c = childLinksOf s c := by
  unfold reassignParent
  by_cases h1 : childExists s n cc = true
  · rw [if_pos h1]
    exact childLinksOf_delete s o cc c h
  · rw [if_neg (by simp [h1])]
    by_cases h2 : childExists s o cc = true
    · rw [if_pos h2]
      rw [childLinksOf_create _ n cc c h]
      exact childLinksOf_delete s o cc c h
    · rw [if_neg (by simp [h2])]

theorem reassignSpouseLinks_childLinks (s : Store) (o n : Nat) :
    (reassignSpouseLinks s o n).childLinks = s.childLinks := by
  unfold reassignSpouseLinks deleteSpousesFor
  simp only
  refine foldl_pres Store.childLinks _ ?_ _ s
  intro s2 sid
  by_cases h1 : sid = n
  · simp [h1]
  · by_cases h2 : spouseExists s2 n sid = true
    · simp [h1, h2]
    · simp [h1, h2, createSpouseLink]

theorem merge_childLinks_eq_phase2 (st : Store) (k d : Nat)
    (kp dp : PersonRec) (hk : getById st k = some kp) (hd : getById st d = some dp) :
    (merge_persons st k d).childLinks
      = (reassignAllChildLinks (reassignAllParentLinks st d k) d k).childLinks := by
  simp only [merge_persons, hk, hd]
  simp only [deletePerson, updatePerson]
  exact reassignSpouseLinks_childLinks _ d k

theorem childLinksOf_reassignAllParentLinks (st : Store) (o n c : Nat)
    (h : childExists st o c = false) :
    childLinksOf (reassignAllParentLinks st o n) c = childLinksOf st c := by
  unfold reassignAllParentLinks
  refine foldl_pres_mem (fun s => childLinksOf s c) _ _ st ?_
  intro s cc hcc
  have hnc : cc ≠ c := by
    intro he
    rw [he] at hcc
    rw [mem_getChildren] at hcc
    rw [← childExists_iff] at hcc
    rw [hcc] at h
    cases h
  exact childLinksOf_reassignParent s o n cc c hnc

theorem childLinksOf_reassignAllChildLinks (st : Store) (o n c : Nat)
    (ho : o ≠ c) (hn : n ≠ c) :
    childLinksOf (reassignAllChildLinks st o n) c = childLinksOf st c := by
  unfold reassignAllChildLinks
  refine foldl_pres (fun s => childLinksOf s c) _ ?_ _ st
  intro s q
  by_cases hq : childExists s q n = true
  · rw [if_pos hq]
    exact childLinksOf_delete s q o c ho
  · rw [if_neg (by simp [hq])]
    show childLinksOf (createChildLink (deleteChildLink s q o) q n) c = childLinksOf s c
    rw [childLinksOf_create _ q n c hn]
    exact childLinksOf_delete s q o c ho

theorem merge_childLinksOf (st : Store) (k d c : Nat)
    (kp dp : PersonRec) (hkp : getById st k = some kp) (hdp : getById st d = some dp)
    (hkc : k ≠ c) (hdc : d ≠ c) (hnc : childExists st d c = false) :
    childLinksOf (merge_persons st k d) c = childLinksOf st c := by
  have h2 := merge_childLinks_eq_phase2 st k d kp dp hkp hdp
  have he : childLinksOf (merge_persons st k d) c
      = childLinksOf (reassignAllChildLinks (reassignAllParentLinks st d k) d k) c := by
    unfold childLinksOf
    rw [h2]
  rw [he, childLinksOf_reassignAllChildLinks _ d k c hdc hkc,
    childLinksOf_reassignAllParentLinks st d k c hnc]

theorem ph1_after_step (s : Store) (o n c cc : Nat) (hno : n ≠ o)
    (V : List (Nat × Nat))
    (h : childLinksOf s c = V.filter (fun l => l ≠ (o, c)) ++ [(n, c)]) :
    childLinksOf (reassignParent s o n cc) c
      = V.filter (fun l => l ≠ (o, c)) ++ [(n, c)] := by
  by_cases hcc : cc = c
  · subst hcc
    have hmem : (n, cc) ∈ s.childLinks := by
      have hw : (n, cc) ∈ childLinksOf s cc := by
        rw [h]
        exact List.mem_append_right _ (List.mem_singleton_self _)
      exact (List.mem_filter.mp hw).1
    unfold reassignParent
    rw [if_pos ((childExists_iff s n cc).mpr hmem)]
    have hstep : childLinksOf (deleteChildLink s o cc) cc
        = (childLinksOf s cc).filter (fun l => l ≠ (o, cc)) := by
      unfold childLinksOf deleteChildLink
      simp only
      rw [List.filter_comm]
    rw [hstep, h, List.filter_eq_self.mpr]
    intro x hx
    rcases List.mem_append.mp hx with h1 | h1
    · exact (List.mem_filter.mp h1).2
    · simp only [List.mem_singleton] at h1
      subst h1
      have hne : ((n, cc) : Nat × Nat) ≠ (o, cc) := by
        intro he
        injection he with he1 he2
        exact hno he1
      simp [hne]
  · rw [childLinksOf_reassignParent s o n cc c hcc, h]

theorem ph1_before_step (s : Store) (o n c cc : Nat) (hcc : cc ≠ c)
    (h1 : (n, c) ∉ s.childLinks) (h2 : (o, c) ∈ s.childLinks) :
    (n, c) ∉ (reassignParent s o n cc).childLinks ∧
    (o, c) ∈ (reassignParent s o n cc).childLinks := by
  have hoc : ((o, c) : Nat × Nat) ≠ (o, cc) := by
    intro he
    injection he with he1 he2
    exact hcc he2.symm
  unfold reassignParent
  by_cases hb1 : childExists s n cc = true
  · rw [if_pos hb1]
    constructor
    · intro hmem
      exact h1 (List.mem_of_mem_filter hmem)
    · show (o, c) ∈ (deleteChildLink s o cc).childLinks
      unfold deleteChildLink
      simp only
      rw [List.mem_filter]
      exact ⟨h2, by simp [hoc]⟩
  · rw [if_neg hb1]
    by_cases hb2 : childExists s o cc = true
    · rw [if_pos hb2]
      constructor
      · intro hmem
        show False
        unfold createChildLink deleteChildLink at hmem
        simp only at hmem
        rcases List.mem_append.mp hmem with hh | hh
        · exact h1 (List.mem_of_mem_filter hh)
        · simp only [List.mem_singleton] at hh
          injection hh with hh1 hh2
          exact hcc hh2.symm
      · show (o, c) ∈ (createChildLink (deleteChildLink s o cc) n cc).childLinks
        unfold createChildLink deleteChildLink
        simp only
        apply List.mem_append_left
        rw [List.mem_filter]
        exact ⟨h2, by simp [hoc]⟩
    · rw [if_neg hb2]
      exact ⟨h1, h2⟩

theorem ph1_at_c (s : Store) (o n c : Nat) (hno : n ≠ o)
    (h1 : (n, c) ∉ s.childLinks) (h2 : (o, c) ∈ s.childLinks) :
    childLinksOf (reassignParent s o n c) c
      = (childLinksOf s c).filter (fun l => l ≠ (o, c)) ++ [(n, c)] := by
  unfold reassignParent
  rw [if_neg (by rw [childExists_iff]; exact h1)]
  rw [if_pos ((childExists_iff s o c).mpr h2)]
  unfold childLinksOf createChildLink deleteChildLink
  simp only
  rw [List.filter_append, List.filter_comm]
  congr 1
  simp

theorem ph1_after_fold (o n c : Nat) (hno : n ≠ o) (V : List (Nat × Nat)) :
    ∀ (cs : List Nat) (s : Store),
      childLinksOf s c = V.filter (fun l => l ≠ (o, c)) ++ [(n, c)] →
      childLinksOf (cs.foldl (fun s2 cc => reassignParent s2 o n cc) s) c
        = V.filter (fun l => l ≠ (o, c)) ++ [(n, c)] := by
  intro cs
  induction cs with
  | nil => intro s h; exact h
  | cons cc t ih =>
    intro s h
    rw [List.foldl_cons]
    exact ih _ (ph1_after_step s o n c cc hno V h)

theorem ph1_main (o n c : Nat) (hno : n ≠ o) :
    ∀ (cs : List Nat) (s : Store),
      (n, c) ∉ s.childLinks → (o, c) ∈ s.childLinks → c ∈ cs →
      childLinksOf (cs.foldl (fun s2 cc => reassignParent s2 o n cc) s) c
        = (childLinksOf s c).filter (fun l => l ≠ (o, c)) ++ [(n, c)] := by
  intro cs
  induction cs with
  | nil => intro s _ _ hc; cases hc
  | cons cc t ih =>
    intro s h1 h2 hc
    rw [List.foldl_cons]
    by_cases hcc : cc = c
    · subst hcc
      exact ph1_after_fold o n cc hno (childLinksOf s cc) t _
        (ph1_at_c s o n cc hno h1 h2)
    · obtain ⟨hb1, hb2⟩ := ph1_before_step s o n c cc hcc h1 h2
      have hfix := childLinksOf_reassignParent s o n cc c hcc
      have hc2 : c ∈ t := by
        rcases List.mem_cons.mp hc with h | h
        · exact absurd h.symm hcc
        · exact h
      rw [← hfix]
      exact ih _ hb1 hb2 hc2

theorem merge_childLinksOf_subst (st : Store) (k d c : Nat)
    (kp dp : PersonRec) (hkp : getById st k = some kp) (hdp : getById st d = some dp)
    (hkc : k ≠ c) (hdc : d ≠ c) (hkd : k ≠ d)
    (hin : (d, c) ∈ st.childLinks)
    (hnotk : (k, c) ∉ st.childLinks) :
    childLinksOf (merge_persons st k d) c
      = (childLinksOf st c).filter (fun l => l ≠ (d, c)) ++ [(k, c)] := by
  have h2 := merge_childLinks_eq_phase2 st k d kp dp hkp hdp
  have he : childLinksOf (merge_persons st k d) c
      = childLinksOf (reassignAllChildLinks (reassignAllParentLinks st d k) d k) c := by
    unfold childLinksOf
    rw [h2]
  rw [he, childLinksOf_reassignAllChildLinks _ d k c hdc hkc]
  unfold reassignAllParentLinks
  exact ph1_main d k c hkd (getChildren st d) st hnotk hin
    ((mem_getChildren st d c).mpr hin)

theorem ph_b1 (o n : Nat) (hne : n ≠ o) :
    ∀ (cs : List Nat) (s : Store),
      (∀ x, (o, x) ∈ s.childLinks → x ∈ cs) →
      ∀ x, (o, x) ∉ ((cs.foldl (fun s2 cc => reassignParent s2 o n cc) s).childLinks) := by
  intro cs
  induction cs with
  | nil =>
    intro s h x hx
    exact absurd (h x hx) (List.not_mem_nil x)
  | cons cc t ih =>
    intro s h x
    rw [List.foldl_cons]
    apply ih
    intro y hy
    unfold reassignParent at hy
    by_cases hb1 : childExists s n cc = true
    · rw [if_pos hb1] at hy
      unfold deleteChildLink at hy
      simp only at hy
      obtain ⟨hmem, hneq⟩ := List.mem_filter.mp hy
      have hy2 := h y hmem
      rcases List.mem_cons.mp hy2 with hh | hh
      · exfalso
        apply of_decide_eq_true hneq
        rw [hh]
      · exact hh
    · rw [if_neg hb1] at hy
      by_cases hb2 : childExists s o cc = true
      · rw [if_pos hb2] at hy
        unfold createChildLink deleteChildLink at hy
        simp only at hy
        rcases List.mem_append.mp hy with hh | hh
        · obtain ⟨hmem, hneq⟩ := List.mem_filter.mp hh
          have hy2 := h y hmem
          rcases List.mem_cons.mp hy2 with hg | hg
          · exfalso
            apply of_decide_eq_true hneq
            rw [hg]
          · exact hg
        · simp only [List.mem_singleton] at hh
          injection hh with hh1 hh2
          exact absurd hh1.symm hne
      · rw [if_neg hb2] at hy
        have hy2 := h y hy
        rcases List.mem_cons.mp hy2 with hh | hh
        · exfalso
          apply hb2
          rw [childExists_iff]
          rw [← hh]
          exact hy
        · exact hh

theorem ph_b2 (o n : Nat) (hne : n ≠ o) :
    ∀ (qs : List Nat) (s : Store),
      (∀ q, (q, o) ∈ s.childLinks → q ∈ qs) →
      (∀ x, (o, x) ∉ s.childLinks) →
      o ∉ qs →
      ∀ l ∈ ((qs.foldl (fun s2 q =>
          if childExists s2 q n then deleteChildLink s2 q o
          else createChildLink (deleteChildLink s2 q o) q n) s).childLinks),
        l.1 ≠ o ∧ l.2 ≠ o := by
  intro qs
  induction qs with
  | nil =>
    intro s h1 h2 _ l hl
    constructor
    · intro he
      apply h2 l.2
      have hpe : ((o, l.2) : Nat × Nat) = l := by
        rw [← he]
      rw [hpe]
      exact hl
    · intro he
      have hpe : ((l.1, o) : Nat × Nat) = l := by
        rw [← he]
      have := h1 l.1 (by rw [hpe]; exact hl)
      exact absurd this (List.not_mem_nil l.1)
  | cons q t ih =>
    intro s h1 h2 hD
    rw [List.foldl_cons]
    have hqo : q ≠ o := by
      intro he
      exact hD (by rw [← he]; exact List.mem_cons_self q t)
    apply ih
    · intro q2 hq2
      by_cases hb : childExists s q n = true
      · rw [if_pos hb] at hq2
        unfold deleteChildLink at hq2
        simp only at hq2
        obtain ⟨hmem, hneq⟩ := List.mem_filter.mp hq2
        have h3 := h1 q2 hmem
        rcases List.mem_cons.mp h3 with hh | hh
        · exfalso
          apply of_decide_eq_true hneq
          rw [hh]
        · exact hh
      · rw [if_neg hb] at hq2
        unfold createChildLink deleteChildLink at hq2
        simp only at hq2
        rcases List.mem_append.mp hq2 with hh | hh
        · obtain ⟨hmem, hneq⟩ := List.mem_filter.mp hh
          have h3 := h1 q2 hmem
          rcases List.mem_cons.mp h3 with hg | hg
          · exfalso
            apply of_decide_eq_true hneq
            rw [hg]
          · exact hg
        · simp only [List.mem_singleton] at hh
          injection hh with hh1 hh2
          exact absurd hh2.symm hne
    · intro x hx
      by_cases hb : childExists s q n = true
      · rw [if_pos hb] at hx
        exact h2 x (List.mem_of_mem_filter hx)
      · rw [if_neg hb] at hx
        unfold createChildLink deleteChildLink at hx
        simp only at hx
        rcases List.mem_append.mp hx with hh | hh
        · exact h2 x (List.mem_of_mem_filter hh)
        · simp only [List.mem_singleton] at hh
          injection hh with hh1 hh2
          exact hqo hh1.symm
    · intro hmem
      exact hD (List.mem_cons_of_mem q hmem)

theorem merge_no_merged_refs (st : Store) (k d : Nat) (hkd : k ≠ d)
    (kp dp : PersonRec) (hkp : getById st k = some kp) (hdp : getById st d = some dp) :
    (∀ l ∈ (merge_persons st k d).childLinks, l.1 ≠ d ∧ l.2 ≠ d) ∧
    (∀ l ∈ (merge_persons st k d).spouseLinks, l.1 ≠ d ∧ l.2 ≠ d) := by
  have hph1 : ∀ x, (d, x) ∉ (reassignAllParentLinks st d k).childLinks := by
    unfold reassignAllParentLinks
    exact ph_b1 d k hkd (getChildren st d) st
      (fun x hx => (mem_getChildren st d x).mpr hx)
  constructor
  · rw [merge_childLinks_eq_phase2 st k d kp dp hkp hdp]
    unfold reassignAllChildLinks
    apply ph_b2 d k hkd (getParents (reassignAllParentLinks st d k) d)
      (reassignAllParentLinks st d k)
      (fun q hq => (mem_getParents _ d q).mpr hq)
      hph1
    intro hmem
    exact hph1 d ((mem_getParents _ d d).mp hmem)
  · have hsp : (merge_persons st k d).spouseLinks
        = (reassignSpouseLinks (reassignAllChildLinks
            (reassignAllParentLinks st d k) d k) d k).spouseLinks := by
      simp only [merge_persons, hkp, hdp]
      simp only [deletePerson, updatePerson]
    rw [hsp]
    unfold reassignSpouseLinks deleteSpousesFor
    simp only
    intro l hl
    obtain ⟨hmem, hcond⟩ := List.mem_filter.mp hl
    have := of_decide_eq_true hcond
    exact this

theorem scan_hits (st : Store) (pid : Nat) (np : PersonRec) :
    ∀ eps : List Nat,
      (∃ ep ∈ eps, ∃ r, getById st ep = some r ∧ isDuplicateParent st r np = true) →
      ∃ ep ∈ eps, ∃ r, getById st ep = some r ∧ isDuplicateParent st r np = true ∧
        (scanDuplicateParents st pid np eps = (pid, merge_persons st pid ep) ∨
         scanDuplicateParents st pid np eps = (ep, merge_persons st ep pid)) := by
  intro eps
  induction eps with
  | nil =>
    rintro ⟨ep, hmem, _⟩
    cases hmem
  | cons e t ih =>
    rintro ⟨ep, hmem, r, hr, hd⟩
    cases hg : getById st e with
    | none =>
      have hept : ep ∈ t := by
        rcases List.mem_cons.mp hmem with hh | hh
        · exfalso
          rw [hh, hg] at hr
          cases hr
        · exact hh
      obtain ⟨ep2, hmem2, r2, hr2, hd2, hsc⟩ := ih ⟨ep, hept, r, hr, hd⟩
      refine ⟨ep2, List.mem_cons_of_mem e hmem2, r2, hr2, hd2, ?_⟩
      simp only [scanDuplicateParents, hg]
      exact hsc
    | some r0 =>
      by_cases hdup : isDuplicateParent st r0 np = true
      · by_cases hbio : (optStrTruthy np.biography = true ∧
            ¬ optStrTruthy r0.biography = true)
        · refine ⟨e, List.mem_cons_self e t, r0, hg, hdup, Or.inl ?_⟩
          simp only [scanDuplicateParents, hg]
          rw [if_pos hdup, if_pos hbio]
        · refine ⟨e, List.mem_cons_self e t, r0, hg, hdup, Or.inr ?_⟩
          simp only [scanDuplicateParents, hg]
          rw [if_pos hdup, if_neg hbio]
      · have hept : ep ∈ t := by
          rcases List.mem_cons.mp hmem with hh | hh
          · exfalso
            rw [hh, hg] at hr
            have hrr := Option.some.inj hr
            rw [← hrr] at hd
            exact hdup hd
          · exact hh
        obtain ⟨ep2, hmem2, r2, hr2, hd2, hsc⟩ := ih ⟨ep, hept, r, hr, hd⟩
        refine ⟨ep2, List.mem_cons_of_mem e hmem2, r2, hr2, hd2, ?_⟩
        simp only [scanDuplicateParents, hg]
        rw [if_neg hdup]
        exact hsc

theorem map_fst_filter_ne (ep c : Nat) :
    ∀ V : List (Nat × Nat), (∀ l ∈ V, l.2 = c) →
      (V.filter (fun l => l ≠ (ep, c))).map (fun l => l.1)
        = (V.map (fun l => l.1)).filter (fun x => x ≠ ep) := by
  intro V
  induction V with
  | nil => intro h; rfl
  | cons a t ih =>
    intro h
    have ha : a.2 = c := h a (List.mem_cons_self a t)
    have ht : ∀ l ∈ t, l.2 = c := fun l hl => h l (List.mem_cons_of_mem a hl)
    by_cases hae : a.1 = ep
    · have hac : a = (ep, c) := by
        cases a
        simp only at ha hae
        rw [ha, hae]
      rw [hac]
      simp only [List.filter_cons, List.map_cons]
      simp only [ne_eq, not_true_eq_false, decide_False]
      exact ih ht
    · have h1 : (a ≠ (ep, c)) := by
        intro he
        rw [he] at hae
        exact hae rfl
      simp only [List.filter_cons, List.map_cons]
      simp only [ne_eq, h1, not_false_eq_true, decide_True, hae]
      simp only [if_true]
      rw [List.map_cons, ih ht]

theorem c1_step_le (st : Store) (c pid : Nat) (np : PersonRec)
    (hcc : c ∉ getParents st c) (hpc : pid ≠ c)
    (hnp : getById st pid = some np)
    (hcnt : 2 ≤ getParentCount st c)
    (hdup : hasDuplicateParentFor st c np = true) :
    (distinctParents (addParentStep st c pid) c).card
      ≤ (distinctParents st c).card := by
  by_cases hex : childExists st pid c = true
  · unfold addParentStep
    rw [if_pos hex]
  · have hexf : childExists st pid c = false := by
      cases h : childExists st pid c
      · rfl
      · exact absurd h hex
    have hexm : (pid, c) ∉ st.childLinks := fun hm =>
      hex ((childExists_iff st pid c).mpr hm)
    have hdupE : ∃ ep ∈ getParents st c, ∃ r,
        getById st ep = some r ∧ isDuplicateParent st r np = true := by
      unfold hasDuplicateParentFor at hdup
      rw [List.any_eq_true] at hdup
      obtain ⟨ep, hmem, hp⟩ := hdup
      cases hg : getById st ep with
      | none => rw [hg] at hp; cases hp
      | some r =>
        rw [hg] at hp
        exact ⟨ep, hmem, r, hg, hp⟩
    obtain ⟨ep, hepmem, r, hepr, hepdup, hscan⟩ :=
      scan_hits st pid np (getParents st c) hdupE
    have hepc : (ep, c) ∈ st.childLinks := (mem_getParents st c ep).mp hepmem
    have hepne : ep ≠ c := fun he => hcc (he ▸ hepmem)
    have hpidep : pid ≠ ep := fun he => hexm (he ▸ hepc)
    have hlen : (getParents st c).length = getParentCount st c := by
      unfold getParents getParentCount
      rw [List.length_map]
    have hcm : check_and_merge_duplicate_parents st c pid
        = scanDuplicateParents st pid np (getParents st c) := by
      unfold check_and_merge_duplicate_parents
      rw [if_neg (by omega)]
      simp only [hnp]
    unfold addParentStep
    rw [if_neg hex, if_pos hcnt]
    simp only [hcm]
    rcases hscan with hs | hs
    · rw [hs]
      have hsubst := merge_childLinksOf_subst st pid ep c np r hnp hepr hpc hepne
        hpidep hepc hexm
      have hpcmem : (pid, c) ∈ (merge_persons st pid ep).childLinks := by
        have hw : (pid, c) ∈ childLinksOf (merge_persons st pid ep) c := by
          rw [hsubst]
          exact List.mem_append_right _ (List.mem_singleton_self _)
        exact (List.mem_filter.mp hw).1
      rw [if_pos ((childExists_iff _ pid c).mpr hpcmem)]
      show (distinctParents (merge_persons st pid ep) c).card
        ≤ (distinctParents st c).card
      have hVc : ∀ l ∈ childLinksOf st c, l.2 = c := by
        intro l hl
        have := (List.mem_filter.mp hl).2
        exact of_decide_eq_true this
      have hgp : getParents (merge_persons st pid ep) c
          = ((childLinksOf st c).map (fun l => l.1)).filter (fun x => x ≠ ep)
              ++ [pid] := by
        rw [getParents_eq, hsubst, List.map_append,
          map_fst_filter_ne ep c (childLinksOf st c) hVc]
        rfl
      have hepS : ep ∈ (getParents st c).toFinset := by
        rw [List.mem_toFinset]
        exact hepmem
      have hsub : (distinctParents (merge_persons st pid ep) c)
          ⊆ insert pid ((getParents st c).toFinset.erase ep) := by
        intro x hx
        unfold distinctParents at hx
        rw [List.mem_toFinset, hgp] at hx
        rcases List.mem_append.mp hx with hh | hh
        · obtain ⟨hxm, hxne⟩ := List.mem_filter.mp hh
          apply Finset.mem_insert_of_mem
          rw [Finset.mem_erase]
          refine ⟨of_decide_eq_true hxne, ?_⟩
          rw [List.mem_toFinset]
          rw [getParents_eq]
          exact hxm
        · simp only [List.mem_singleton] at hh
          rw [hh]
          exact Finset.mem_insert_self pid _
      have hcard1 := Finset.card_le_card hsub
      have hcard2 := Finset.card_insert_le pid ((getParents st c).toFinset.erase ep)
      have hcard3 := Finset.card_erase_of_mem hepS
      have hpos : 0 < (getParents st c).toFinset.card :=
        Finset.card_pos.mpr ⟨ep, hepS⟩
      have hdp1 : (distinctParents st c).card = (getParents st c).toFinset.card := rfl
      omega
    · rw [hs]
      have hsame := merge_childLinksOf st ep pid c r np hepr hnp hepne hpc hexf
      have hepcm : (ep, c) ∈ (merge_persons st ep pid).childLinks := by
        have hw : (ep, c) ∈ childLinksOf (merge_persons st ep pid) c := by
          rw [hsame]
          exact List.mem_filter.mpr ⟨hepc, by simp⟩
        exact (List.mem_filter.mp hw).1
      rw [if_pos ((childExists_iff _ ep c).mpr hepcm)]
      show (distinctParents (merge_persons st ep pid) c).card
        ≤ (distinctParents st c).card
      have hgp : getParents (merge_persons st ep pid) c = getParents st c := by
        rw [getParents_eq, hsame, ← getParents_eq]
      unfold distinctParents
      rw [hgp]

/-- C1: the merge invariant, amended.  (a) The reconcile step itself never
raises a child's distinct-parent count: when a child with two or more
recorded parents gains a new resolved parent while some recorded parent
triggers the duplicate-detectable condition, the resulting distinct-parent
count of that child does not exceed the previous one (the new parent is
merged into an existing one, in either merge direction).  (b) After any
merge(keep, merged) of two existing records, no Child Link and no Spouse
Link references the merged-away id, and its Person record is gone.  The
claim's global form — no child ever exceeds two distinct parents — is
false: a merge's link reassignment unions the merged-away record's
parents onto the kept record, pushing the kept record (as a child) to up
to four distinct parents (see the counterexample). -/
theorem c1_merge_invariant :
    (∀ st c pid np, c ∉ getParents st c → pid ≠ c →
      getById st pid = some np → 2 ≤ getParentCount st c →
      hasDuplicateParentFor st c np = true →
      (distinctParents (addParentStep st c pid) c).card
        ≤ (distinctParents st c).card) ∧
    (∀ st keep merged, keep ≠ merged →
      (getById st keep).isSome = true → (getById st merged).isSome = true →
      (∀ l ∈ (merge_persons st keep merged).childLinks,
        l.1 ≠ merged ∧ l.2 ≠ merged) ∧
      (∀ l ∈ (merge_persons st keep merged).spouseLinks,
        l.1 ≠ merged ∧ l.2 ≠ merged) ∧
      getById (merge_persons st keep merged) merged = none) := by
  constructor
  · intro st c pid np h1 h2 h3 h4 h5
    exact c1_step_le st c pid np h1 h2 h3 h4 h5
  · intro st keep merged hne hk hm
    cases hks : getById st keep with
    | none => rw [hks] at hk; cases hk
    | some kp =>
      cases hms : getById st merged with
      | none => rw [hms] at hm; cases hm
      | some mp =>
        obtain ⟨hchild, hsp⟩ := merge_no_merged_refs st keep merged hne kp mp hks hms
        refine ⟨hchild, hsp, ?_⟩
        simp only [merge_persons, hks, hms]
        exact getById_delete _ merged

set_option maxRecDepth 100000 in
theorem c1_witness :
    (((1 : Nat) ∉ getParents c1Pre 1) ∧ (4 : Nat) ≠ 1 ∧
      getById c1Pre 4 = some (mkMaleComplete 4 "John" "Smith") ∧
      2 ≤ getParentCount c1Pre 1 ∧
      hasDuplicateParentFor c1Pre 1 (mkMaleComplete 4 "John" "Smith") = true ∧
      (distinctParents (addParentStep c1Pre 1 4) 1).card
        ≤ (distinctParents c1Pre 1).card) ∧
    ((∀ l ∈ (merge_persons stM 1 2).childLinks, l.1 ≠ 2 ∧ l.2 ≠ 2) ∧
      (∀ l ∈ (merge_persons stM 1 2).spouseLinks, l.1 ≠ 2 ∧ l.2 ≠ 2) ∧
      getById (merge_persons stM 1 2) 2 = none) :=
  ⟨⟨by with_unfolding_all decide, by decide, by with_unfolding_all decide,
    by with_unfolding_all decide, by with_unfolding_all decide,
    c1_merge_invariant.1 c1Pre 1 4 (mkMaleComplete 4 "John" "Smith")
      (by with_unfolding_all decide) (by decide)
      (by with_unfolding_all decide) (by with_unfolding_all decide)
      (by with_unfolding_all decide)⟩,
   c1_merge_invariant.2 stM 1 2 (by decide) (by decide) (by decide)⟩

set_option maxRecDepth 200000 in
set_option maxHeartbeats 2000000 in
/-- C1 counterexample: processing the parent links of the scenario store
through the reconcile step leaves child `2` with four distinct parents
(`5`, `6`, `7`, `8`) even though two of them (`5` and `7`) satisfy the
duplicate-detectable merge condition: merging parent `4` into parent `2`
reassigned `4`'s recorded parents onto `2`, breaking the global
two-parent invariant for `2` as a child. -/
theorem c1_counterexample :
    ((5 : Nat) ∈ getParents c1Final 2 ∧ (7 : Nat) ∈ getParents c1Final 2 ∧
      getById c1Final 5 = some (mkMaleComplete 5 "Sam" "Stone") ∧
      getById c1Final 7 = some (mkMaleComplete 7 "Sam" "Stone") ∧
      isDuplicateParent c1Final (mkMaleComplete 5 "Sam" "Stone")
        (mkMaleComplete 7 "Sam" "Stone") = true) ∧
    (distinctParents c1Final 2).card = 4 := by
  refine ⟨⟨?_, ?_, ?_, ?_, ?_⟩, ?_⟩ <;> with_unfolding_all decide

end AncestralSynth
